import Mathlib

/-!
# twemproxy dispatch core (`src/nc_core.c`)

A shallow embedding of `core_core`, `core_error`, `core_close`, `core_recv`,
`core_send`, `core_timeout`, `core_loop`, `core_ctx_create` and `core_start`.

* C pointers to connections become connection identifiers (`ConnId`).
* Everything the role-specific strategies (`conn->recv`, `conn->send`,
  `conn->close`) and the operating system can read or write lives in `Heap`;
  they are arbitrary functions on it, collected in `Env`.
* The fields of `struct context` that only `nc_core.c` and `event_wait` write
  (`timeout`, `max_timeout`, `event`) live in `State`, next to a ghost `trace`
  of the calls the dispatch core makes, in program order.
* `log_*` calls and `ASSERT` (compiled out of release builds) have no effect on
  the state and are left out.
-/

namespace Twemproxy

/-! ## Constants -/

/-- The constant `EPOLLIN` of `<sys/epoll.h>`. -/
def EPOLLIN : Nat := 0x001

/-- The constant `EPOLLOUT` of `<sys/epoll.h>`. -/
def EPOLLOUT : Nat := 0x004

/-- The constant `EPOLLERR` of `<sys/epoll.h>`. -/
def EPOLLERR : Nat := 0x008

/-- The constant `EPOLLHUP` of `<sys/epoll.h>`. -/
def EPOLLHUP : Nat := 0x010

/-- The constant `ETIMEDOUT` of `<errno.h>` on Linux. -/
def ETIMEDOUT : Int := 110

/-- Modelled from the spec: `nc_core.h`, which defines the status codes, is
not part of the sources at hand; the spec only speaks of an "{OK, error}"
status contract.  `NC_OK` is the success status, zero. -/
def NC_OK : Int := 0

/-- Modelled from the spec: `nc_core.h` is not part of the sources at hand;
`NC_ERROR` is the generic failure status, a negative integer. -/
def NC_ERROR : Int := -1

/-- Modelled from the spec: the `MIN` macro (`nc_util.h`) is not part of the
sources at hand; the spec reads `min(deadline − now, max_timeout)`.  The usual
definition `((a) < (b) ? (a) : (b))`. -/
def MIN (a b : Int) : Int := if a < b then a else b

/-- The value of a C conversion to `int` (32 bits, two's complement): the
argument reduced modulo `2^32` into `[-2^31, 2^31)`. -/
def toInt32 (x : Int) : Int := (x + 2 ^ 31) % 2 ^ 32 - 2 ^ 31

/-! ## Data model -/

/-- A `struct conn *`. -/
abbrev ConnId := Nat

/-- The fields of `struct conn` that `nc_core.c` reads or writes. -/
structure Conn where
  sd : Int
  client : Bool
  proxy : Bool
  events : Nat
  err : Int
  eof : Bool
  done : Bool
  recv_bytes : Nat
  send_bytes : Nat
deriving DecidableEq, Repr

/-- The fields of `struct msg` that `nc_core.c` reads: `id`, the `error` and
`done` bits, and the timeout-tree node `tmo_rbe` with its `key` (the absolute
deadline, `int64_t`) and `data` (the owning connection). -/
structure Msg where
  id : Nat
  error : Bool
  done : Bool
  tmo_key : Int
  tmo_data : ConnId
deriving DecidableEq, Repr

/-- One `struct epoll_event`: `data.ptr` and `events`. -/
structure EpollEvent where
  ptr : ConnId
  events : Nat
deriving DecidableEq, Repr

/-- The memory the strategies and the operating system share with the core:
the connections, the timeout queue, `errno`, and the rest of the world
(sockets, clocks, statistics buffers) as an uninterpreted value. -/
structure Heap where
  conns : ConnId → Conn
  tmo : List Msg
  errno : Int
  world : Nat

/-- The calls made by the dispatch core, in the order it makes them: entry
into its own functions (`core_core`, `core_error`, `core_close`,
`core_timeout`, `send_message`), calls of its collaborators, and the stores
to `conn->err`. -/
inductive Call where
  | core_core (c : ConnId) (events : Nat)
  | core_error (c : ConnId)
  | core_close (c : ConnId)
  | core_timeout
  | send_message
  | event_wait
  | conn_recv (c : ConnId)
  | conn_send (c : ConnId)
  | conn_close (c : ConnId)
  | event_del_conn (c : ConnId)
  | nc_get_soerror (c : ConnId)
  | set_err (c : ConnId) (e : Int)
  | msg_tmo_min
  | msg_tmo_delete (m : Msg)
  | nc_msec_now
  | stats_swap
  | sendmsg
deriving DecidableEq, Repr

/-- The collaborators of the dispatch core, none of which is defined in
`nc_core.c`: the per-connection strategies, the event layer, the clock, the
statistics subsystem and `sendmsg(2)`. Each is an arbitrary function of the
heap; status results are C `int`s. -/
structure Env where
  recv : ConnId → Heap → Int × Heap
  send : ConnId → Heap → Int × Heap
  close : ConnId → Heap → Heap
  event_del_conn : ConnId → Heap → Int × Heap
  nc_get_soerror : ConnId → Heap → Int × Heap
  nc_msec_now : Heap → Int
  event_wait : Int → Heap → Int × (Nat → EpollEvent) × Heap
  stats_swap : Heap → Heap
  sendmsg : Heap → Int × Heap

/-- The state the dispatch core runs on: the heap, the fields `timeout`,
`max_timeout` and `event` of `struct context`, and the trace of calls. -/
structure State where
  heap : Heap
  timeout : Int
  max_timeout : Int
  event : Nat → EpollEvent
  trace : List Call

/-- Append a call to the trace. -/
def State.log (st : State) (c : Call) : State :=
  { st with trace := st.trace ++ [c] }

/-- Replace the heap. -/
def State.setHeap (st : State) (h : Heap) : State :=
  { st with heap := h }

/-- The store `conn->field = v`, through a function on the connection. -/
def Heap.updConn (h : Heap) (c : ConnId) (f : Conn → Conn) : Heap :=
  { h with conns := fun d => if d = c then f (h.conns d) else h.conns d }

/-! ## `core_recv`, `core_send`, `core_close`, `core_error`, `core_core` -/

/-- `core_recv`: `status = conn->recv(ctx, conn); return status;` -/
def core_recv (env : Env) (conn : ConnId) (st : State) : Int × State :=
  let r := env.recv conn st.heap
  (r.1, (st.log (Call.conn_recv conn)).setHeap r.2)

/-- `core_send`: `status = conn->send(ctx, conn); return status;` -/
def core_send (env : Env) (conn : ConnId) (st : State) : Int × State :=
  let r := env.send conn st.heap
  (r.1, (st.log (Call.conn_send conn)).setHeap r.2)

/-- `core_close`: `event_del_conn(ep, conn)` (a failure is only logged), then
`conn->close(ctx, conn)`. -/
def core_close (env : Env) (conn : ConnId) (st : State) : State :=
  let st0 := st.log (Call.core_close conn)
  let r := env.event_del_conn conn st0.heap
  let st1 := (st0.log (Call.event_del_conn conn)).setHeap r.2
  (st1.log (Call.conn_close conn)).setHeap (env.close conn st1.heap)

/-- `core_error`: `nc_get_soerror(conn->sd)` (a failure is only logged),
`conn->err = errno`, then `core_close`. -/
def core_error (env : Env) (conn : ConnId) (st : State) : State :=
  let st0 := st.log (Call.core_error conn)
  let r := env.nc_get_soerror conn st0.heap
  let st1 := (st0.log (Call.nc_get_soerror conn)).setHeap r.2
  let e := st1.heap.errno
  let st2 := (st1.log (Call.set_err conn e)).setHeap
    (st1.heap.updConn conn (fun k => { k with err := e }))
  core_close env conn st2

/-- The test `status != NC_OK || conn->done || conn->err` of `core_core`. -/
def mustClose (status : Int) (h : Heap) (conn : ConnId) : Bool :=
  status != NC_OK || (h.conns conn).done || (h.conns conn).err != 0

/-- The last block of `core_core`: `if (events & EPOLLOUT) { ... }`. -/
def core_core_write (env : Env) (conn : ConnId) (events : Nat) (st : State) : State :=
  if events &&& EPOLLOUT ≠ 0 then
    let s := core_send env conn st
    if mustClose s.1 s.2.heap conn then
      core_close env conn s.2
    else s.2
  else st

/-- The first statement of `core_core`: `conn->events = events`. -/
def core_core_entry (conn : ConnId) (events : Nat) (st : State) : State :=
  (st.log (Call.core_core conn events)).setHeap
    (st.heap.updConn conn (fun k => { k with events := events }))

/-- `core_core`: store the mask in `conn->events`; on `EPOLLERR` run
`core_error` and return; on `EPOLLIN | EPOLLHUP` run `core_recv` and, when it
failed or left the connection done or in error, `core_close` and return;
then the `EPOLLOUT` block. -/
def core_core (env : Env) (conn : ConnId) (events : Nat) (st : State) : State :=
  let st0 := core_core_entry conn events st
  if events &&& EPOLLERR ≠ 0 then
    core_error env conn st0
  else if events &&& (EPOLLIN ||| EPOLLHUP) ≠ 0 then
    let r := core_recv env conn st0
    if mustClose r.1 r.2.heap conn then
      core_close env conn r.2
    else core_core_write env conn events r.2
  else core_core_write env conn events st0

/-! ## The timeout queue and `core_timeout` -/

/-- Modelled from the spec: `msg_tmo_min` (`nc_message.c`, over the red-black
tree of `nc_rbtree.c`) is not part of the sources at hand.  "`peek_minimum()`
returns the request with the smallest deadline among all inserted and
not-yet-removed requests, or empty if none remain"; among equal deadlines the
one that comes first in the queue. -/
def msg_tmo_min : List Msg → Option Msg
  | [] => none
  | m :: ms =>
    match msg_tmo_min ms with
    | none => some m
    | some k => if m.tmo_key ≤ k.tmo_key then some m else some k

/-- Modelled from the spec: `msg_tmo_delete` (`nc_message.c`) is not part of
the sources at hand; it removes the request from the timeout queue ("a request
appears in the Timeout Queue at most once"). -/
def msg_tmo_delete (m : Msg) (q : List Msg) : List Msg := q.erase m

/-- How one pass through the body of a `for (;;)` loop ends. -/
inductive LoopStep where
  | continue (st : State)
  | return (st : State)

/-- The body of the `for (;;)` loop of `core_timeout`. -/
def core_timeout_body (env : Env) (st : State) : LoopStep :=
  let st1 := st.log Call.msg_tmo_min
  match msg_tmo_min st1.heap.tmo with
  | none => LoopStep.return { st1 with timeout := st1.max_timeout }
  | some msg =>
    -- skip over req that are in-error or done
    if msg.error || msg.done then
      LoopStep.continue ((st1.log (Call.msg_tmo_delete msg)).setHeap
        { st1.heap with tmo := msg_tmo_delete msg st1.heap.tmo })
    else
      let conn := msg.tmo_data
      let then_ := msg.tmo_key
      let now := env.nc_msec_now st1.heap
      let st2 := st1.log Call.nc_msec_now
      if now < then_ then
        let delta := toInt32 (then_ - now)
        LoopStep.return { st2 with timeout := MIN delta st2.max_timeout }
      else
        let st3 := (st2.log (Call.msg_tmo_delete msg)).setHeap
          { st2.heap with tmo := msg_tmo_delete msg st2.heap.tmo }
        let st4 := (st3.log (Call.set_err conn ETIMEDOUT)).setHeap
          (st3.heap.updConn conn (fun k => { k with err := ETIMEDOUT }))
        LoopStep.continue (core_close env conn st4)

/-- The `for (;;)` loop of `core_timeout`, run for at most `fuel` passes;
`none` when the loop has not returned by then. -/
def core_timeout_loop (env : Env) : Nat → State → Option State
  | 0, _ => none
  | fuel + 1, st =>
    match core_timeout_body env st with
    | LoopStep.continue st1 => core_timeout_loop env fuel st1
    | LoopStep.return st1 => some st1

/-- `core_timeout`. -/
def core_timeout (env : Env) (fuel : Nat) (st : State) : Option State :=
  core_timeout_loop env fuel (st.log Call.core_timeout)

/-! ## `send_message` and `core_loop` -/

/-- `send_message`: two `sendmsg(fd, &msghdr, MSG_DONTWAIT)` calls; a negative
result is only logged. -/
def send_message (env : Env) (st : State) : State :=
  let st0 := st.log Call.send_message
  let st1 := (st0.log Call.sendmsg).setHeap (env.sendmsg st0.heap).2
  (st1.log Call.sendmsg).setHeap (env.sendmsg st1.heap).2

/-- The loop `for (i = 0; i < nsd; i++) core_core(ctx, ev->data.ptr,
ev->events)` of `core_loop` with `ev = &ctx->event[i]`: `n` passes from
index `i` on. -/
def core_loop_dispatch (env : Env) : Nat → Nat → State → State
  | 0, _, st => st
  | n + 1, i, st =>
    core_loop_dispatch env n (i + 1)
      (core_core env (st.event i).ptr (st.event i).events st)

/-- The first statement of `core_loop`: `nsd = event_wait(ep, ctx->event,
ctx->nevent, ctx->timeout)`, which fills `ctx->event`. -/
def afterWait (env : Env) (st : State) : State :=
  { st.log Call.event_wait with
    heap := (env.event_wait st.timeout st.heap).2.2
    event := (env.event_wait st.timeout st.heap).2.1 }

/-- `core_loop`: the status returned and the state reached; `none` when the
timeout sweep has not returned within `fuel` passes. -/
def core_loop (env : Env) (fuel : Nat) (st : State) : Option (Int × State) :=
  let nsd := (env.event_wait st.timeout st.heap).1
  let st1 := afterWait env st
  if nsd < 0 then
    some (nsd, st1)
  else
    let st2 := core_loop_dispatch env nsd.toNat 0 st1
    match core_timeout env fuel st2 with
    | none => none
    | some st3 =>
      let st4 := (st3.log Call.stats_swap).setHeap (env.stats_swap st3.heap)
      some (NC_OK, send_message env st4)

/-! ## `core_ctx_create` and `core_start` -/

/-- The calls made during start-up. -/
inductive SetupCall where
  | mbuf_init
  | msg_init
  | conn_init
  | conn_deinit
  | msg_deinit
  | mbuf_deinit
  | nc_alloc
  | nc_free
  | conf_create
  | conf_destroy
  | server_pool_init
  | server_pool_deinit
  | server_pool_disconnect
  | socketpair
  | nc_set_nonblocking (i : Nat)
  | stats_create
  | stats_destroy
  | event_init
  | event_deinit
  | proxy_init
  | fork (i : Nat)
  | process_loop (i : Nat)
  | exit (code : Int)
deriving DecidableEq, Repr

/-- The outcome of each set-up step: for the allocating steps whether the
pointer returned is non-NULL, for the others the `int` returned; `fork i` is
what the `i`-th `fork()` returns in the process running `core_ctx_create`. -/
structure SetupEnv where
  nc_alloc : Bool
  conf_create : Bool
  server_pool_init : Int
  socketpair : Int
  nc_set_nonblocking : Nat → Int
  stats_create : Bool
  event_init : Int
  proxy_init : Int
  fork : Nat → Int

/-- What `core_ctx_create` and `core_start` hand back: `NULL`, the context,
another integer converted to a pointer (`return NC_ERROR;`), or nothing at
all because the process called `exit` (the forked child). -/
inductive CtxResult where
  | null
  | ctx
  | invalid (v : Int)
  | exited (code : Int)
deriving DecidableEq, Repr

/-- The loop `for (i = 0; i < 8; ++i) { pid = fork(); switch (pid) ... }` of
`core_ctx_create`: `n` passes from index `i` on, then `return ctx`. -/
def core_ctx_create_fork (env : SetupEnv) :
    Nat → Nat → List SetupCall → CtxResult × List SetupCall
  | 0, _, tr => (CtxResult.ctx, tr)
  | n + 1, i, tr =>
    let pid := env.fork i
    let tr1 := tr ++ [SetupCall.fork i]
    if pid = -1 then
      (CtxResult.null, tr1)
    else if pid = 0 then
      (CtxResult.exited 1, tr1 ++ [SetupCall.process_loop i, SetupCall.exit 1])
    else
      core_ctx_create_fork env n (i + 1) tr1

/-- `core_ctx_create`: the result and the calls made, in order. -/
def core_ctx_create (env : SetupEnv) : CtxResult × List SetupCall :=
  let tr0 := [SetupCall.nc_alloc]
  if !env.nc_alloc then (CtxResult.null, tr0)
  else
    -- parse and create configuration
    let tr1 := tr0 ++ [SetupCall.conf_create]
    if !env.conf_create then (CtxResult.null, tr1 ++ [SetupCall.nc_free])
    else
      -- initialize server pool from configuration
      let tr2 := tr1 ++ [SetupCall.server_pool_init]
      if env.server_pool_init ≠ NC_OK then
        (CtxResult.null, tr2 ++ [SetupCall.conf_destroy, SetupCall.nc_free])
      else
        -- create socket pair: a failure is only logged
        let tr3 := tr2 ++ [SetupCall.socketpair]
        let tr4 := tr3 ++ [SetupCall.nc_set_nonblocking 0]
        if env.nc_set_nonblocking 0 < 0 then (CtxResult.invalid NC_ERROR, tr4)
        else
          let tr5 := tr4 ++ [SetupCall.nc_set_nonblocking 1]
          if env.nc_set_nonblocking 1 < 0 then (CtxResult.invalid NC_ERROR, tr5)
          else
            -- create stats per server pool
            let tr6 := tr5 ++ [SetupCall.stats_create]
            if !env.stats_create then
              (CtxResult.null, tr6 ++ [SetupCall.server_pool_deinit,
                SetupCall.conf_destroy, SetupCall.nc_free])
            else
              -- initialize event handling for client, proxy and server
              let tr7 := tr6 ++ [SetupCall.event_init]
              if env.event_init ≠ NC_OK then
                (CtxResult.null, tr7 ++ [SetupCall.stats_destroy,
                  SetupCall.server_pool_deinit, SetupCall.conf_destroy,
                  SetupCall.nc_free])
              else
                -- initialize proxy per server pool
                let tr8 := tr7 ++ [SetupCall.proxy_init]
                if env.proxy_init ≠ NC_OK then
                  (CtxResult.null, tr8 ++ [SetupCall.server_pool_disconnect,
                    SetupCall.event_deinit, SetupCall.stats_destroy,
                    SetupCall.server_pool_deinit, SetupCall.conf_destroy,
                    SetupCall.nc_free])
                else
                  core_ctx_create_fork env 8 0 tr8

/-- `core_start`: `mbuf_init`, `msg_init`, `conn_init`, `core_ctx_create`;
when that returned a non-NULL pointer it is returned, otherwise
`conn_deinit`, `msg_deinit`, `mbuf_deinit` and `NULL`. -/
def core_start (env : SetupEnv) : CtxResult × List SetupCall :=
  let r := core_ctx_create env
  let tr := [SetupCall.mbuf_init, SetupCall.msg_init, SetupCall.conn_init] ++ r.2
  match r.1 with
  | CtxResult.null =>
    (CtxResult.null, tr ++ [SetupCall.conn_deinit, SetupCall.msg_deinit,
      SetupCall.mbuf_deinit])
  | res => (res, tr)

/-! ## Names for the phases of `core_core` and sample inputs -/

/-- The read phase of `core_core`: `core_recv` on the state `core_core`
starts from. -/
def readPhase (env : Env) (conn : ConnId) (events : Nat) (st : State) : Int × State :=
  core_recv env conn (core_core_entry conn events st)

/-- The write phase of `core_core`: `core_send` on the state the read phase
left, or on the starting state when no read-class bit is set. -/
def writePhase (env : Env) (conn : ConnId) (events : Nat) (st : State) : Int × State :=
  core_send env conn
    (if events &&& (EPOLLIN ||| EPOLLHUP) ≠ 0 then (readPhase env conn events st).2
     else core_core_entry conn events st)

/-- A heap with idle client connections, an empty timeout queue and the clock
(`world`) at `1000`. -/
def heap0 : Heap :=
  { conns := fun _ => ⟨7, true, false, 0, 0, false, false, 0, 0⟩
    tmo := []
    errno := 0
    world := 1000 }

/-- Collaborators that always succeed and change nothing; the clock reads
`world`; `event_wait` reports no event. -/
def env0 : Env :=
  { recv := fun _ h => (NC_OK, h)
    send := fun _ h => (NC_OK, h)
    close := fun _ h => h
    event_del_conn := fun _ h => (0, h)
    nc_get_soerror := fun _ h => (0, h)
    nc_msec_now := fun h => (h.world : Int)
    event_wait := fun _ h => (0, fun _ => ⟨0, 0⟩, h)
    stats_swap := fun h => h
    sendmsg := fun h => (16, h) }

/-- As `env0`, but the recv strategy meets the end of the stream: it returns
`NC_OK` and marks the connection `eof` and `done`. -/
def envEof : Env :=
  { env0 with
    recv := fun c h => (NC_OK, h.updConn c (fun k => { k with eof := true, done := true })) }

/-- A starting state over `heap0` with `max_timeout` 30000 ms. -/
def state0 : State :=
  { heap := heap0, timeout := 30000, max_timeout := 30000,
    event := fun _ => ⟨0, 0⟩, trace := [] }

/-- The state `state0` with the given timeout queue. -/
def stateQ (q : List Msg) : State :=
  { state0 with heap := { heap0 with tmo := q } }

/-- A pending request of connection 1 whose deadline 900 is before the clock
reading 1000 of `heap0`. -/
def msgExpired : Msg := ⟨1, false, false, 900, 1⟩

/-- A pending request of connection 1 whose deadline 1500 is after the clock
reading 1000 of `heap0`. -/
def msgLive : Msg := ⟨2, false, false, 1500, 1⟩

/-- A request of connection 2 marked done, with the old deadline 100. -/
def msgDone : Msg := ⟨3, false, true, 100, 2⟩

/-- A pending request whose deadline is `2^31` ms after the clock reading
1000 of `heap0`. -/
def msgFar : Msg := ⟨4, false, false, 1000 + 2 ^ 31, 1⟩

/-- As `env0`, but the close strategy purges the timeout-queue entries of the
connection it closes, as the spec asks of close strategies. -/
def envPurge : Env :=
  { env0 with
    close := fun c h => { h with tmo := h.tmo.filter (fun m => m.tmo_data != c) } }

/-- As `env0`, with a clock that stands at 1000. -/
def envFixed : Env :=
  { env0 with nc_msec_now := fun _ => 1000 }

/-- As `envPurge`, with a clock that stands at 1000. -/
def envPurgeFixed : Env :=
  { envPurge with nc_msec_now := fun _ => 1000 }

/-- The requests removed by the `msg_tmo_delete` calls of a trace, in order. -/
def deletions : List Call → List Msg
  | [] => []
  | Call.msg_tmo_delete m :: t => m :: deletions t
  | _ :: t => deletions t

/-- The calls `core_loop` makes itself: `event_wait`, `core_core`,
`core_timeout`, `stats_swap` and `send_message`. -/
def isTop : Call → Bool
  | Call.event_wait => true
  | Call.core_core _ _ => true
  | Call.core_timeout => true
  | Call.stats_swap => true
  | Call.send_message => true
  | _ => false

/-- As `envEof`, with two ready events: a readable connection 3 and a
connection 4 in error. -/
def envTwoEvents : Env :=
  { envEof with
    event_wait := fun _ h =>
      (2, fun i => if i = 0 then ⟨3, EPOLLIN⟩ else ⟨4, EPOLLERR⟩, h) }

/-- As `env0`, with a failing `event_wait`. -/
def envWaitFails : Env :=
  { env0 with event_wait := fun _ h => (-1, fun _ => ⟨0, 0⟩, h) }

/-- A start-up in which every step succeeds except the first `fork`. -/
def setupForkFails : SetupEnv :=
  { nc_alloc := true, conf_create := true, server_pool_init := 0, socketpair := 0,
    nc_set_nonblocking := fun _ => 0, stats_create := true, event_init := 0,
    proxy_init := 0, fork := fun _ => -1 }

/-- A start-up in which every step up to `proxy_init` succeeds and
`proxy_init` fails. -/
def setupProxyFails : SetupEnv :=
  { setupForkFails with proxy_init := -1 }

/-- A start-up in which `nc_set_nonblocking` fails on the first end of the
channel. -/
def setupNonblockFails : SetupEnv :=
  { setupForkFails with nc_set_nonblocking := fun _ => -1 }

/-- A start-up in which `socketpair` fails and everything else, the eight
`fork` calls included, succeeds in the parent. -/
def setupSocketpairFails : SetupEnv :=
  { setupForkFails with socketpair := -1, fork := fun i => 4000 + i }

/-! ## Traces of the building blocks -/

@[simp] theorem log_trace (st : State) (c : Call) : (st.log c).trace = st.trace ++ [c] := rfl

@[simp] theorem log_heap (st : State) (c : Call) : (st.log c).heap = st.heap := rfl

@[simp] theorem log_timeout (st : State) (c : Call) : (st.log c).timeout = st.timeout := rfl

@[simp] theorem log_max_timeout (st : State) (c : Call) :
    (st.log c).max_timeout = st.max_timeout := rfl

@[simp] theorem log_event (st : State) (c : Call) : (st.log c).event = st.event := rfl

@[simp] theorem setHeap_trace (st : State) (h : Heap) : (st.setHeap h).trace = st.trace := rfl

@[simp] theorem setHeap_heap (st : State) (h : Heap) : (st.setHeap h).heap = h := rfl

@[simp] theorem setHeap_timeout (st : State) (h : Heap) :
    (st.setHeap h).timeout = st.timeout := rfl

@[simp] theorem setHeap_max_timeout (st : State) (h : Heap) :
    (st.setHeap h).max_timeout = st.max_timeout := rfl

@[simp] theorem setHeap_event (st : State) (h : Heap) : (st.setHeap h).event = st.event := rfl

@[simp] theorem core_core_entry_trace (conn : ConnId) (events : Nat) (st : State) :
    (core_core_entry conn events st).trace = st.trace ++ [Call.core_core conn events] := rfl

@[simp] theorem core_recv_trace (env : Env) (conn : ConnId) (st : State) :
    (core_recv env conn st).2.trace = st.trace ++ [Call.conn_recv conn] := rfl

@[simp] theorem core_send_trace (env : Env) (conn : ConnId) (st : State) :
    (core_send env conn st).2.trace = st.trace ++ [Call.conn_send conn] := rfl

@[simp] theorem core_close_trace (env : Env) (conn : ConnId) (st : State) :
    (core_close env conn st).trace
      = st.trace ++ [Call.core_close conn, Call.event_del_conn conn, Call.conn_close conn] := by
  simp [core_close]

@[simp] theorem core_close_timeout (env : Env) (conn : ConnId) (st : State) :
    (core_close env conn st).timeout = st.timeout := rfl

@[simp] theorem core_close_max_timeout (env : Env) (conn : ConnId) (st : State) :
    (core_close env conn st).max_timeout = st.max_timeout := rfl

@[simp] theorem core_close_event (env : Env) (conn : ConnId) (st : State) :
    (core_close env conn st).event = st.event := rfl

theorem core_error_trace (env : Env) (conn : ConnId) (st : State) :
    (core_error env conn st).trace
      = st.trace ++ [Call.core_error conn, Call.nc_get_soerror conn,
          Call.set_err conn (env.nc_get_soerror conn st.heap).2.errno,
          Call.core_close conn, Call.event_del_conn conn, Call.conn_close conn] := by
  simp [core_error]

/-- No receive or send follows a `core_close` in a trace that splits into a
part without `core_close` and a part without receive or send. -/
theorem no_io_after_close_of_split (p s : List Call)
    (hp : ∀ d, Call.core_close d ∉ p)
    (hs : ∀ e, Call.conn_recv e ∉ s ∧ Call.conn_send e ∉ s) :
    ∀ a b d, p ++ s = a ++ Call.core_close d :: b →
      ∀ e, Call.conn_recv e ∉ b ∧ Call.conn_send e ∉ b := by
  intro a b d h e
  rcases List.append_eq_append_iff.mp h with ⟨a1, ha, hs1⟩ | ⟨c1, hp1, hc⟩
  · have hsub : ∀ x, x ∈ b → x ∈ s := by
      intro x hx
      rw [hs1]
      simp [hx]
    exact ⟨fun hx => (hs e).1 (hsub _ hx), fun hx => (hs e).2 (hsub _ hx)⟩
  · cases c1 with
    | nil =>
      simp at hc
      have hsub : ∀ x, x ∈ b → x ∈ s := by
        intro x hx
        rw [← hc]
        simp [hx]
      exact ⟨fun hx => (hs e).1 (hsub _ hx), fun hx => (hs e).2 (hsub _ hx)⟩
    | cons x xs =>
      simp at hc
      exfalso
      apply hp d
      rw [hp1, ← hc.1]
      simp

/-- The `EPOLLOUT` block without the write bit does nothing. -/
theorem core_core_write_skip (env : Env) (conn : ConnId) (events : Nat) (st : State)
    (hw : events &&& EPOLLOUT = 0) : core_core_write env conn events st = st := by
  simp [core_core_write, hw]

/-- The `EPOLLOUT` block when the send asks for a close. -/
theorem core_core_write_close (env : Env) (conn : ConnId) (events : Nat) (st : State)
    (hw : events &&& EPOLLOUT ≠ 0)
    (hc : mustClose (core_send env conn st).1 (core_send env conn st).2.heap conn = true) :
    core_core_write env conn events st = core_close env conn (core_send env conn st).2 := by
  simp [core_core_write, hw, hc]

/-- The `EPOLLOUT` block when the send went through. -/
theorem core_core_write_ok (env : Env) (conn : ConnId) (events : Nat) (st : State)
    (hw : events &&& EPOLLOUT ≠ 0)
    (hc : mustClose (core_send env conn st).1 (core_send env conn st).2.heap conn = false) :
    core_core_write env conn events st = (core_send env conn st).2 := by
  simp [core_core_write, hw, hc]

/-- The calls of the `EPOLLOUT` block: an optional send, then an optional
`core_close`. -/
theorem core_core_write_trace_split (env : Env) (conn : ConnId) (events : Nat) (st : State) :
    ∃ p s, (core_core_write env conn events st).trace = st.trace ++ (p ++ s) ∧
      (p = [] ∨ p = [Call.conn_send conn]) ∧
      (s = [] ∨ s = [Call.core_close conn, Call.event_del_conn conn, Call.conn_close conn]) := by
  by_cases hw : events &&& EPOLLOUT = 0
  · exact ⟨[], [], by simp [core_core_write_skip env conn events st hw], Or.inl rfl, Or.inl rfl⟩
  · by_cases hc : mustClose (core_send env conn st).1 (core_send env conn st).2.heap conn = true
    · refine ⟨[Call.conn_send conn], _, ?_, Or.inr rfl, Or.inr rfl⟩
      rw [core_core_write_close env conn events st hw hc]
      simp
    · refine ⟨[Call.conn_send conn], [], ?_, Or.inr rfl, Or.inl rfl⟩
      rw [core_core_write_ok env conn events st hw (by simpa using hc)]
      simp

/-- `core_core` on a mask with the error bit. -/
theorem core_core_of_err (env : Env) (conn : ConnId) (events : Nat) (st : State)
    (herr : events &&& EPOLLERR ≠ 0) :
    core_core env conn events st = core_error env conn (core_core_entry conn events st) := by
  simp [core_core, herr]

/-- `core_core` when the read phase asks for a close. -/
theorem core_core_of_read_close (env : Env) (conn : ConnId) (events : Nat) (st : State)
    (herr : events &&& EPOLLERR = 0) (hr : events &&& (EPOLLIN ||| EPOLLHUP) ≠ 0)
    (hc : mustClose (readPhase env conn events st).1
      (readPhase env conn events st).2.heap conn = true) :
    core_core env conn events st = core_close env conn (readPhase env conn events st).2 := by
  unfold readPhase at hc
  simp [core_core, herr, hr, hc, readPhase]

/-- `core_core` when the read phase went through: the `EPOLLOUT` block runs on
the state it left. -/
theorem core_core_of_read_ok (env : Env) (conn : ConnId) (events : Nat) (st : State)
    (herr : events &&& EPOLLERR = 0) (hr : events &&& (EPOLLIN ||| EPOLLHUP) ≠ 0)
    (hc : mustClose (readPhase env conn events st).1
      (readPhase env conn events st).2.heap conn = false) :
    core_core env conn events st
      = core_core_write env conn events (readPhase env conn events st).2 := by
  unfold readPhase at hc
  simp [core_core, herr, hr, hc, readPhase]

/-- `core_core` on a mask without error and read-class bits: the `EPOLLOUT`
block runs on the starting state. -/
theorem core_core_of_no_read (env : Env) (conn : ConnId) (events : Nat) (st : State)
    (herr : events &&& EPOLLERR = 0) (hr : events &&& (EPOLLIN ||| EPOLLHUP) = 0) :
    core_core env conn events st
      = core_core_write env conn events (core_core_entry conn events st) := by
  simp [core_core, herr, hr]

/-- The calls of one `core_core`: the entry, then calls among the recv and
send strategies, `core_error`, `nc_get_soerror` and the store to `conn->err`,
then nothing or the three calls of one `core_close`. -/
theorem core_core_trace_split (env : Env) (conn : ConnId) (events : Nat) (st : State) :
    ∃ p s, (core_core env conn events st).trace
        = st.trace ++ (Call.core_core conn events :: p ++ s) ∧
      (∀ x ∈ p, x = Call.conn_recv conn ∨ x = Call.conn_send conn ∨ x = Call.core_error conn
        ∨ x = Call.nc_get_soerror conn ∨ ∃ e, x = Call.set_err conn e) ∧
      (s = [] ∨ s = [Call.core_close conn, Call.event_del_conn conn, Call.conn_close conn]) := by
  by_cases herr : events &&& EPOLLERR = 0
  · by_cases hr : events &&& (EPOLLIN ||| EPOLLHUP) = 0
    · obtain ⟨p, s, htr, hp, hs⟩ :=
        core_core_write_trace_split env conn events (core_core_entry conn events st)
      refine ⟨p, s, ?_, ?_, hs⟩
      · rw [core_core_of_no_read env conn events st herr hr, htr]
        simp
      · intro x hx
        rcases hp with hp | hp <;> subst hp <;> simp at hx
        exact Or.inr (Or.inl hx)
    · by_cases hc : mustClose (readPhase env conn events st).1
          (readPhase env conn events st).2.heap conn = true
      · refine ⟨[Call.conn_recv conn], _, ?_, ?_, Or.inr rfl⟩
        · rw [core_core_of_read_close env conn events st herr hr hc]
          simp [readPhase]
        · intro x hx
          simp at hx
          exact Or.inl hx
      · obtain ⟨p, s, htr, hp, hs⟩ :=
          core_core_write_trace_split env conn events (readPhase env conn events st).2
        refine ⟨Call.conn_recv conn :: p, s, ?_, ?_, hs⟩
        · rw [core_core_of_read_ok env conn events st herr hr (by simpa using hc), htr]
          simp [readPhase]
        · intro x hx
          rcases hp with hp | hp <;> subst hp <;> simp at hx
          · exact Or.inl hx
          · rcases hx with hx | hx
            · exact Or.inl hx
            · exact Or.inr (Or.inl hx)
  · refine ⟨[Call.core_error conn, Call.nc_get_soerror conn,
      Call.set_err conn (env.nc_get_soerror conn (core_core_entry conn events st).heap).2.errno],
      _, ?_, ?_, Or.inr rfl⟩
    · rw [core_core_of_err env conn events st herr, core_error_trace]
      simp
    · intro x hx
      simp at hx
      rcases hx with hx | hx | hx
      · exact Or.inr (Or.inr (Or.inl hx))
      · exact Or.inr (Or.inr (Or.inr (Or.inl hx)))
      · exact Or.inr (Or.inr (Or.inr (Or.inr ⟨_, hx⟩)))

/-- Between its entry and its `core_close`, `core_core` enters no
`core_close` and calls no close strategy. -/
theorem core_core_trace_split_no_close (env : Env) (conn : ConnId) (events : Nat) (st : State) :
    ∃ p s, (core_core env conn events st).trace
        = st.trace ++ (Call.core_core conn events :: p ++ s) ∧
      (∀ d, Call.core_close d ∉ p ∧ Call.conn_close d ∉ p) ∧
      (s = [] ∨ s = [Call.core_close conn, Call.event_del_conn conn, Call.conn_close conn]) := by
  obtain ⟨p, s, htr, hp, hs⟩ := core_core_trace_split env conn events st
  refine ⟨p, s, htr, ?_, hs⟩
  intro d
  constructor
  · intro hx
    rcases hp _ hx with h | h | h | h | ⟨e, h⟩ <;> simp at h
  · intro hx
    rcases hp _ hx with h | h | h | h | ⟨e, h⟩ <;> simp at h

/-! ## One pass of the sweep -/

theorem MIN_eq_min (a b : Int) : MIN a b = min a b := by
  unfold MIN
  split
  · rw [min_eq_left]; omega
  · rw [min_eq_right]; omega

theorem toInt32_of_fits (x : Int) (hlo : -2 ^ 31 ≤ x) (hhi : x ≤ 2 ^ 31 - 1) : toInt32 x = x := by
  unfold toInt32
  omega

/-- The pass of the sweep over an empty queue. -/
theorem core_timeout_body_empty (env : Env) (st : State) (hmin : msg_tmo_min st.heap.tmo = none) :
    core_timeout_body env st
      = LoopStep.return { st.log Call.msg_tmo_min with timeout := st.max_timeout } := by
  simp [core_timeout_body, hmin]

/-- The pass of the sweep over a minimum that is in error or done. -/
theorem core_timeout_body_dead (env : Env) (st : State) (msg : Msg)
    (hmin : msg_tmo_min st.heap.tmo = some msg)
    (hdead : msg.error = true ∨ msg.done = true) :
    core_timeout_body env st
      = LoopStep.continue
          { st with
            heap := { st.heap with tmo := msg_tmo_delete msg st.heap.tmo }
            trace := st.trace ++ [Call.msg_tmo_min, Call.msg_tmo_delete msg] } := by
  simp [core_timeout_body, hmin, hdead, State.log, State.setHeap]

/-- The pass of the sweep over a pending minimum whose deadline is ahead. -/
theorem core_timeout_body_live (env : Env) (st : State) (msg : Msg)
    (hmin : msg_tmo_min st.heap.tmo = some msg)
    (herr : msg.error = false) (hdone : msg.done = false)
    (hlt : env.nc_msec_now st.heap < msg.tmo_key) :
    core_timeout_body env st
      = LoopStep.return
          { st with
            timeout := MIN (toInt32 (msg.tmo_key - env.nc_msec_now st.heap)) st.max_timeout
            trace := st.trace ++ [Call.msg_tmo_min, Call.nc_msec_now] } := by
  simp [core_timeout_body, hmin, herr, hdone, hlt, State.log]

/-- The pass of the sweep over a pending minimum whose deadline has passed. -/
theorem core_timeout_body_expired (env : Env) (st : State) (msg : Msg)
    (hmin : msg_tmo_min st.heap.tmo = some msg)
    (herr : msg.error = false) (hdone : msg.done = false)
    (hexp : msg.tmo_key ≤ env.nc_msec_now st.heap) :
    core_timeout_body env st
      = LoopStep.continue (core_close env msg.tmo_data
          { st with
            heap := ({ st.heap with tmo := msg_tmo_delete msg st.heap.tmo }).updConn
              msg.tmo_data (fun k => { k with err := ETIMEDOUT })
            trace := st.trace ++ [Call.msg_tmo_min, Call.nc_msec_now,
              Call.msg_tmo_delete msg, Call.set_err msg.tmo_data ETIMEDOUT] }) := by
  have h : ¬ env.nc_msec_now st.heap < msg.tmo_key := by omega
  simp [core_timeout_body, hmin, herr, hdone, h, State.log, State.setHeap]

/-! ## The timeout queue -/

theorem msg_tmo_min_eq_none (q : List Msg) : msg_tmo_min q = none ↔ q = [] := by
  cases q with
  | nil => simp [msg_tmo_min]
  | cons m ms =>
    simp only [msg_tmo_min]
    cases msg_tmo_min ms with
    | none => simp
    | some k => by_cases h : m.tmo_key ≤ k.tmo_key <;> simp [h]

theorem msg_tmo_min_of_ne_nil (q : List Msg) (h : q ≠ []) : ∃ m, msg_tmo_min q = some m := by
  cases hq : msg_tmo_min q with
  | none => exact absurd ((msg_tmo_min_eq_none q).mp hq) h
  | some m => exact ⟨m, rfl⟩

/-- The request `msg_tmo_min` returns is in the queue and no request of the
queue has an earlier deadline. -/
theorem msg_tmo_min_spec (q : List Msg) (m : Msg) (h : msg_tmo_min q = some m) :
    m ∈ q ∧ ∀ x ∈ q, m.tmo_key ≤ x.tmo_key := by
  induction q generalizing m with
  | nil => simp [msg_tmo_min] at h
  | cons a as ih =>
    simp only [msg_tmo_min] at h
    cases hq : msg_tmo_min as with
    | none =>
      rw [hq] at h
      have has : as = [] := (msg_tmo_min_eq_none as).mp hq
      simp at h
      subst h
      subst has
      simp
    | some k =>
      rw [hq] at h
      obtain ⟨hk, hle⟩ := ih k hq
      by_cases hak : a.tmo_key ≤ k.tmo_key
      · simp [hak] at h
        subst h
        refine ⟨by simp, ?_⟩
        intro x hx
        rcases List.mem_cons.mp hx with hx | hx
        · subst hx; exact le_refl _
        · exact le_trans hak (hle x hx)
      · simp [hak] at h
        subst h
        refine ⟨by simp [hk], ?_⟩
        intro x hx
        rcases List.mem_cons.mp hx with hx | hx
        · subst hx; omega
        · exact hle x hx

theorem deletions_append (a b : List Call) : deletions (a ++ b) = deletions a ++ deletions b := by
  induction a with
  | nil => rfl
  | cons x xs ih => cases x <;> simp [deletions, ih]

/-- A close path that leaves the timeout queue alone. -/
theorem core_close_tmo_of_unchanged (env : Env)
    (hclose : ∀ c h, (env.close c h).tmo = h.tmo)
    (hdel : ∀ c h, (env.event_del_conn c h).2.tmo = h.tmo)
    (conn : ConnId) (st : State) :
    (core_close env conn st).heap.tmo = st.heap.tmo := by
  simp [core_close, hclose, hdel]

/-- A close path that inserts nothing into the timeout queue. -/
theorem core_close_tmo_sublist (env : Env)
    (hclose : ∀ c h, (env.close c h).tmo.Sublist h.tmo)
    (hdel : ∀ c h, (env.event_del_conn c h).2.tmo.Sublist h.tmo)
    (conn : ConnId) (st : State) :
    (core_close env conn st).heap.tmo.Sublist st.heap.tmo := by
  simp only [core_close, setHeap_heap, log_heap]
  exact (hclose _ _).trans (hdel _ _)

/-! ## Whole sweeps -/

/-- The sweep up to a pending, unexpired request `live`, when the close path
leaves the queue alone: from a loop head whose queue holds `n` requests with a
deadline before that of `live`, all of them dead or expired, the loop returns
within `n + 1` passes, having deleted exactly those `n` requests. -/
theorem core_timeout_loop_stops_at_live (env : Env) (live : Msg)
    (hclose : ∀ c h, (env.close c h).tmo = h.tmo)
    (hdel : ∀ c h, (env.event_del_conn c h).2.tmo = h.tmo)
    (herr : live.error = false) (hdone : live.done = false)
    (hunexp : ∀ h, env.nc_msec_now h < live.tmo_key) :
    ∀ (n : Nat) (st : State),
      (st.heap.tmo.filter (fun m => decide (m.tmo_key < live.tmo_key))).length = n →
      live ∈ st.heap.tmo →
      (∀ m ∈ st.heap.tmo, m.tmo_key < live.tmo_key →
        (m.error = true ∨ m.done = true) ∨ ∀ h, m.tmo_key ≤ env.nc_msec_now h) →
      (∀ m ∈ st.heap.tmo, m.tmo_key = live.tmo_key → m = live) →
      ∃ st1 t, (∀ fuel, n < fuel → core_timeout_loop env fuel st = some st1) ∧
        st1.trace = st.trace ++ t ∧
        st1.heap.tmo = st.heap.tmo.filter (fun m => decide (live.tmo_key ≤ m.tmo_key)) ∧
        (deletions t).Perm (st.heap.tmo.filter (fun m => decide (m.tmo_key < live.tmo_key))) ∧
        st1.timeout
          = MIN (toInt32 (live.tmo_key - env.nc_msec_now st1.heap)) st.max_timeout ∧
        st1.max_timeout = st.max_timeout := by
  intro n
  induction n with
  | zero =>
    intro st hn hmem _ htie
    have hall : ∀ x ∈ st.heap.tmo, live.tmo_key ≤ x.tmo_key := by
      intro x hx
      by_contra hlt
      have : x ∈ st.heap.tmo.filter (fun m => decide (m.tmo_key < live.tmo_key)) := by
        simp [List.mem_filter, hx]
        omega
      rw [List.length_eq_zero.mp hn] at this
      simp at this
    obtain ⟨m, hm⟩ := msg_tmo_min_of_ne_nil st.heap.tmo (List.ne_nil_of_mem hmem)
    obtain ⟨hmq, hmle⟩ := msg_tmo_min_spec _ _ hm
    have hml : m = live := htie m hmq (le_antisymm (hmle live hmem) (hall m hmq))
    subst hml
    refine ⟨{ st with
        timeout := MIN (toInt32 (m.tmo_key - env.nc_msec_now st.heap)) st.max_timeout
        trace := st.trace ++ [Call.msg_tmo_min, Call.nc_msec_now] },
      [Call.msg_tmo_min, Call.nc_msec_now], ?_, rfl, ?_, ?_, rfl, rfl⟩
    · intro fuel hf
      obtain ⟨f, rfl⟩ : ∃ f, fuel = f + 1 := ⟨fuel - 1, by omega⟩
      simp [core_timeout_loop, core_timeout_body_live env st m hm herr hdone (hunexp _)]
    · show st.heap.tmo = _
      symm
      rw [List.filter_eq_self]
      intro x hx
      simpa using hall x hx
    · rw [List.length_eq_zero.mp hn]
      simp [deletions]
  | succ n ih =>
    intro st hn hmem hpre htie
    obtain ⟨m, hm⟩ := msg_tmo_min_of_ne_nil st.heap.tmo (List.ne_nil_of_mem hmem)
    obtain ⟨hmq, hmle⟩ := msg_tmo_min_spec _ _ hm
    -- the minimum is one of the `n + 1` early requests
    have hex : ∃ x, x ∈ st.heap.tmo.filter (fun m => decide (m.tmo_key < live.tmo_key)) := by
      cases hf : st.heap.tmo.filter (fun m => decide (m.tmo_key < live.tmo_key)) with
      | nil => rw [hf] at hn; simp at hn
      | cons x xs => exact ⟨x, by simp⟩
    obtain ⟨x, hx⟩ := hex
    have hxq : x ∈ st.heap.tmo := (List.mem_filter.mp hx).1
    have hxlt : x.tmo_key < live.tmo_key := by simpa using (List.mem_filter.mp hx).2
    have hmlt : m.tmo_key < live.tmo_key := lt_of_le_of_lt (hmle x hxq) hxlt
    have hmf : m ∈ st.heap.tmo.filter (fun m => decide (m.tmo_key < live.tmo_key)) := by
      simp [List.mem_filter, hmq, hmlt]
    have hmne : live ≠ m := by
      intro h
      rw [h] at hmlt
      omega
    -- what holds of any loop head whose queue is the old one without `m`
    have hnext : ∀ st2 : State, st2.heap.tmo = msg_tmo_delete m st.heap.tmo →
        st2.max_timeout = st.max_timeout →
        ∃ st1 t, (∀ fuel, n < fuel → core_timeout_loop env fuel st2 = some st1) ∧
          st1.trace = st2.trace ++ t ∧
          st1.heap.tmo = st.heap.tmo.filter (fun m => decide (live.tmo_key ≤ m.tmo_key)) ∧
          (m :: deletions t).Perm
            (st.heap.tmo.filter (fun m => decide (m.tmo_key < live.tmo_key))) ∧
          st1.timeout
            = MIN (toInt32 (live.tmo_key - env.nc_msec_now st1.heap)) st.max_timeout ∧
          st1.max_timeout = st.max_timeout := by
      intro st2 hq hmax
      have hq2 : st2.heap.tmo = st.heap.tmo.erase m := hq
      obtain ⟨st1, t, h1, h2, h3, h4, h5, h6⟩ := ih st2
        (by
          rw [hq2, ← List.erase_filter, List.length_erase_of_mem hmf, hn]
          rfl)
        (by rw [hq2]; exact (List.mem_erase_of_ne hmne).mpr hmem)
        (by
          intro y hy
          rw [hq2] at hy
          exact hpre y (List.mem_of_mem_erase hy))
        (by
          intro y hy
          rw [hq2] at hy
          exact htie y (List.mem_of_mem_erase hy))
      refine ⟨st1, t, h1, h2, ?_, ?_, ?_, ?_⟩
      · rw [h3, hq2, ← List.erase_filter]
        apply List.erase_of_not_mem
        simp [List.mem_filter]
        intro _
        omega
      · rw [hq2, ← List.erase_filter] at h4
        exact (List.Perm.cons m h4).trans (List.perm_cons_erase hmf).symm
      · rw [h5, hmax]
      · rw [h6, hmax]
    by_cases hd : m.error = true ∨ m.done = true
    · obtain ⟨st1, t, h1, h2, h3, h4, h5, h6⟩ := hnext
        { st with
          heap := { st.heap with tmo := msg_tmo_delete m st.heap.tmo }
          trace := st.trace ++ [Call.msg_tmo_min, Call.msg_tmo_delete m] } rfl rfl
      refine ⟨st1, [Call.msg_tmo_min, Call.msg_tmo_delete m] ++ t, ?_, ?_, h3, ?_, h5, h6⟩
      · intro fuel hf
        obtain ⟨f, rfl⟩ : ∃ f, fuel = f + 1 := ⟨fuel - 1, by omega⟩
        simp only [core_timeout_loop, core_timeout_body_dead env st m hm hd]
        exact h1 f (by omega)
      · rw [h2]
        simp
      · simpa [deletions_append, deletions] using h4
    · have he : m.error = false := by
        cases h : m.error
        · rfl
        · exact absurd (Or.inl h) hd
      have hdn : m.done = false := by
        cases h : m.done
        · rfl
        · exact absurd (Or.inr h) hd
      have hexp : m.tmo_key ≤ env.nc_msec_now st.heap := by
        rcases hpre m hmq hmlt with h | h
        · exact absurd h hd
        · exact h _
      obtain ⟨st1, t, h1, h2, h3, h4, h5, h6⟩ := hnext
        (core_close env m.tmo_data
          { st with
            heap := ({ st.heap with tmo := msg_tmo_delete m st.heap.tmo }).updConn
              m.tmo_data (fun k => { k with err := ETIMEDOUT })
            trace := st.trace ++ [Call.msg_tmo_min, Call.nc_msec_now,
              Call.msg_tmo_delete m, Call.set_err m.tmo_data ETIMEDOUT] })
        (by rw [core_close_tmo_of_unchanged env hclose hdel]; rfl) rfl
      refine ⟨st1, [Call.msg_tmo_min, Call.nc_msec_now, Call.msg_tmo_delete m,
        Call.set_err m.tmo_data ETIMEDOUT, Call.core_close m.tmo_data,
        Call.event_del_conn m.tmo_data, Call.conn_close m.tmo_data] ++ t, ?_, ?_, h3, ?_, h5, h6⟩
      · intro fuel hf
        obtain ⟨f, rfl⟩ : ∃ f, fuel = f + 1 := ⟨fuel - 1, by omega⟩
        simp only [core_timeout_loop, core_timeout_body_expired env st m hm he hdn hexp]
        exact h1 f (by omega)
      · rw [h2]
        simp
      · simpa [deletions_append, deletions] using h4

/-- The pass of the sweep over an empty queue returns, whatever the fuel. -/
theorem core_timeout_loop_empty (env : Env) (st : State) (hq : st.heap.tmo = []) (fuel : Nat) :
    core_timeout_loop env (fuel + 1) st
      = some { st.log Call.msg_tmo_min with timeout := st.max_timeout } := by
  have hmin : msg_tmo_min st.heap.tmo = none := (msg_tmo_min_eq_none _).mpr hq
  simp [core_timeout_loop, core_timeout_body_empty env st hmin]

/-- The sweep over a queue without a pending, unexpired request, when the
close path inserts nothing: from a loop head whose queue holds at most `n`
requests the loop returns within `n + 1` passes, with the queue empty and
`ctx->timeout` set to `ctx->max_timeout`. -/
theorem core_timeout_loop_drains (env : Env)
    (hclose : ∀ c h, (env.close c h).tmo.Sublist h.tmo)
    (hdel : ∀ c h, (env.event_del_conn c h).2.tmo.Sublist h.tmo) :
    ∀ (n : Nat) (st : State), st.heap.tmo.length ≤ n →
      (∀ m ∈ st.heap.tmo,
        (m.error = true ∨ m.done = true) ∨ ∀ h, m.tmo_key ≤ env.nc_msec_now h) →
      ∃ st1 t, (∀ fuel, n < fuel → core_timeout_loop env fuel st = some st1) ∧
        st1.trace = st.trace ++ t ∧
        st1.heap.tmo = [] ∧
        st1.timeout = st.max_timeout ∧
        st1.max_timeout = st.max_timeout := by
  intro n
  induction n with
  | zero =>
    intro st hlen _
    have hq : st.heap.tmo = [] := List.length_eq_zero.mp (by omega)
    refine ⟨{ st.log Call.msg_tmo_min with timeout := st.max_timeout }, [Call.msg_tmo_min],
      ?_, rfl, hq, rfl, rfl⟩
    intro fuel hf
    obtain ⟨f, rfl⟩ : ∃ f, fuel = f + 1 := ⟨fuel - 1, by omega⟩
    exact core_timeout_loop_empty env st hq f
  | succ n ih =>
    intro st hlen hall
    by_cases hq : st.heap.tmo = []
    · refine ⟨{ st.log Call.msg_tmo_min with timeout := st.max_timeout }, [Call.msg_tmo_min],
        ?_, rfl, hq, rfl, rfl⟩
      intro fuel hf
      obtain ⟨f, rfl⟩ : ∃ f, fuel = f + 1 := ⟨fuel - 1, by omega⟩
      exact core_timeout_loop_empty env st hq f
    · obtain ⟨m, hm⟩ := msg_tmo_min_of_ne_nil st.heap.tmo hq
      obtain ⟨hmq, _⟩ := msg_tmo_min_spec _ _ hm
      have hlen1 : (msg_tmo_delete m st.heap.tmo).length ≤ n := by
        unfold msg_tmo_delete
        rw [List.length_erase_of_mem hmq]
        omega
      have hall1 : ∀ x ∈ msg_tmo_delete m st.heap.tmo,
          (x.error = true ∨ x.done = true) ∨ ∀ h, x.tmo_key ≤ env.nc_msec_now h :=
        fun x hx => hall x (List.mem_of_mem_erase hx)
      by_cases hd : m.error = true ∨ m.done = true
      · obtain ⟨st1, t, h1, h2, h3, h4, h5⟩ := ih
          { st with
            heap := { st.heap with tmo := msg_tmo_delete m st.heap.tmo }
            trace := st.trace ++ [Call.msg_tmo_min, Call.msg_tmo_delete m] } hlen1 hall1
        refine ⟨st1, [Call.msg_tmo_min, Call.msg_tmo_delete m] ++ t, ?_, ?_, h3, h4, h5⟩
        · intro fuel hf
          obtain ⟨f, rfl⟩ : ∃ f, fuel = f + 1 := ⟨fuel - 1, by omega⟩
          simp only [core_timeout_loop, core_timeout_body_dead env st m hm hd]
          exact h1 f (by omega)
        · rw [h2]
          simp
      · have he : m.error = false := by
          cases h : m.error
          · rfl
          · exact absurd (Or.inl h) hd
        have hdn : m.done = false := by
          cases h : m.done
          · rfl
          · exact absurd (Or.inr h) hd
        have hexp : m.tmo_key ≤ env.nc_msec_now st.heap := by
          rcases hall m hmq with h | h
          · exact absurd h hd
          · exact h _
        have hsub := core_close_tmo_sublist env hclose hdel m.tmo_data
          { st with
            heap := ({ st.heap with tmo := msg_tmo_delete m st.heap.tmo }).updConn
              m.tmo_data (fun k => { k with err := ETIMEDOUT })
            trace := st.trace ++ [Call.msg_tmo_min, Call.nc_msec_now,
              Call.msg_tmo_delete m, Call.set_err m.tmo_data ETIMEDOUT] }
        obtain ⟨st1, t, h1, h2, h3, h4, h5⟩ := ih
          (core_close env m.tmo_data
            { st with
              heap := ({ st.heap with tmo := msg_tmo_delete m st.heap.tmo }).updConn
                m.tmo_data (fun k => { k with err := ETIMEDOUT })
              trace := st.trace ++ [Call.msg_tmo_min, Call.nc_msec_now,
                Call.msg_tmo_delete m, Call.set_err m.tmo_data ETIMEDOUT] })
          (le_trans hsub.length_le hlen1)
          (fun x hx => hall1 x (hsub.subset hx))
        refine ⟨st1, [Call.msg_tmo_min, Call.nc_msec_now, Call.msg_tmo_delete m,
          Call.set_err m.tmo_data ETIMEDOUT, Call.core_close m.tmo_data,
          Call.event_del_conn m.tmo_data, Call.conn_close m.tmo_data] ++ t, ?_, ?_, h3, h4, h5⟩
        · intro fuel hf
          obtain ⟨f, rfl⟩ : ∃ f, fuel = f + 1 := ⟨fuel - 1, by omega⟩
          simp only [core_timeout_loop, core_timeout_body_expired env st m hm he hdn hexp]
          exact h1 f (by omega)
        · rw [h2]
          simp

theorem envFixed_now (h : Heap) : envFixed.nc_msec_now h = 1000 := rfl

theorem envPurgeFixed_now (h : Heap) : envPurgeFixed.nc_msec_now h = 1000 := rfl

/-! ## `core_loop` -/

theorem core_core_event (env : Env) (conn : ConnId) (events : Nat) (st : State) :
    (core_core env conn events st).event = st.event := by
  unfold core_core core_core_write
  simp only []
  split_ifs <;> rfl

/-- Of the calls of one `core_core`, only the entry is a call of `core_loop`
itself. -/
theorem core_core_top (env : Env) (conn : ConnId) (events : Nat) (st : State) :
    ∃ t, (core_core env conn events st).trace = st.trace ++ t ∧
      t.filter isTop = [Call.core_core conn events] := by
  obtain ⟨p, s, htr, hp, hs⟩ := core_core_trace_split env conn events st
  refine ⟨Call.core_core conn events :: p ++ s, htr, ?_⟩
  have hp0 : p.filter isTop = [] := by
    rw [List.filter_eq_nil_iff]
    intro x hx
    rcases hp x hx with h | h | h | h | ⟨e, h⟩ <;> subst h <;> simp [isTop]
  have hs0 : s.filter isTop = [] := by
    rcases hs with h | h <;> subst h <;> simp [isTop]
  simp [List.filter_cons, isTop, hp0, hs0]

/-- The dispatch loop enters `core_core` once for each of the `n` entries of
`ctx->event` from index `i` on, in index order. -/
theorem core_loop_dispatch_top (env : Env) :
    ∀ (n i : Nat) (st : State),
      (core_loop_dispatch env n i st).event = st.event ∧
      ∃ t, (core_loop_dispatch env n i st).trace = st.trace ++ t ∧
        t.filter isTop
          = (List.range' i n).map
              (fun j => Call.core_core (st.event j).ptr (st.event j).events) := by
  intro n
  induction n with
  | zero =>
    intro i st
    exact ⟨rfl, [], by simp [core_loop_dispatch], by simp⟩
  | succ n ih =>
    intro i st
    obtain ⟨hev, t, ht, hf⟩ := ih (i + 1) (core_core env (st.event i).ptr (st.event i).events st)
    obtain ⟨t0, ht0, hf0⟩ := core_core_top env (st.event i).ptr (st.event i).events st
    rw [core_core_event] at hev hf
    refine ⟨hev, t0 ++ t, ?_, ?_⟩
    · show (core_loop_dispatch env n (i + 1) _).trace = _
      rw [ht, ht0]
      simp
    · rw [List.filter_append, hf0, hf]
      simp [List.range'_succ]

/-- One pass of the sweep: it returns or it goes on after deleting the
minimum (and, for an expired request, running `core_close`); either way it
makes no call that `core_loop` makes itself. -/
theorem core_timeout_body_cases (env : Env) (st : State) :
    (∃ st1 t, core_timeout_body env st = LoopStep.return st1 ∧
      st1.trace = st.trace ++ t ∧ t.filter isTop = []) ∨
    (∃ st1 t m, core_timeout_body env st = LoopStep.continue st1 ∧
      st1.trace = st.trace ++ t ∧ t.filter isTop = [] ∧ m ∈ st.heap.tmo ∧
      ((st1.heap.tmo = msg_tmo_delete m st.heap.tmo) ∨
        ∃ s0 : State, s0.heap.tmo = msg_tmo_delete m st.heap.tmo ∧
          st1 = core_close env m.tmo_data s0)) := by
  cases hmin : msg_tmo_min st.heap.tmo with
  | none =>
    exact Or.inl ⟨_, [Call.msg_tmo_min], core_timeout_body_empty env st hmin, rfl, by simp [isTop]⟩
  | some m =>
    have hmq := (msg_tmo_min_spec _ _ hmin).1
    by_cases hd : m.error = true ∨ m.done = true
    · exact Or.inr ⟨_, [Call.msg_tmo_min, Call.msg_tmo_delete m], m,
        core_timeout_body_dead env st m hmin hd, rfl, by simp [isTop], hmq, Or.inl rfl⟩
    · have he : m.error = false := by
        cases h : m.error
        · rfl
        · exact absurd (Or.inl h) hd
      have hdn : m.done = false := by
        cases h : m.done
        · rfl
        · exact absurd (Or.inr h) hd
      by_cases hlt : env.nc_msec_now st.heap < m.tmo_key
      · exact Or.inl ⟨_, [Call.msg_tmo_min, Call.nc_msec_now],
          core_timeout_body_live env st m hmin he hdn hlt, rfl, by simp [isTop]⟩
      · refine Or.inr ⟨_, [Call.msg_tmo_min, Call.nc_msec_now, Call.msg_tmo_delete m,
          Call.set_err m.tmo_data ETIMEDOUT, Call.core_close m.tmo_data,
          Call.event_del_conn m.tmo_data, Call.conn_close m.tmo_data], m,
          core_timeout_body_expired env st m hmin he hdn (by omega), ?_, by simp [isTop], hmq,
          Or.inr ⟨_, rfl, rfl⟩⟩
        simp

/-- Whenever the sweep returns, the calls it made are none of those
`core_loop` makes itself. -/
theorem core_timeout_loop_top (env : Env) :
    ∀ (fuel : Nat) (st st1 : State), core_timeout_loop env fuel st = some st1 →
      ∃ t, st1.trace = st.trace ++ t ∧ t.filter isTop = [] := by
  intro fuel
  induction fuel with
  | zero =>
    intro st st1 h
    simp [core_timeout_loop] at h
  | succ f ih =>
    intro st st1 h
    rcases core_timeout_body_cases env st with ⟨s1, t, hb, ht, hf⟩ | ⟨s1, t, m, hb, ht, hf, _, _⟩
    · simp only [core_timeout_loop, hb, Option.some.injEq] at h
      subst h
      exact ⟨t, ht, hf⟩
    · simp only [core_timeout_loop, hb] at h
      obtain ⟨t2, ht2, hf2⟩ := ih s1 st1 h
      refine ⟨t ++ t2, ?_, ?_⟩
      · rw [ht2, ht]; simp
      · rw [List.filter_append, hf, hf2]; rfl

/-- The sweep returns when the close path does not make the queue longer:
every pass that goes on has made it shorter. -/
theorem core_timeout_loop_terminates (env : Env)
    (hclose : ∀ c h, (env.close c h).tmo.length ≤ h.tmo.length)
    (hdel : ∀ c h, (env.event_del_conn c h).2.tmo.length ≤ h.tmo.length) :
    ∀ (n : Nat) (st : State), st.heap.tmo.length ≤ n →
      ∃ st1, ∀ fuel, n < fuel → core_timeout_loop env fuel st = some st1 := by
  intro n
  induction n with
  | zero =>
    intro st hlen
    have hq : st.heap.tmo = [] := List.length_eq_zero.mp (by omega)
    refine ⟨{ st.log Call.msg_tmo_min with timeout := st.max_timeout }, ?_⟩
    intro fuel hf
    obtain ⟨f, rfl⟩ : ∃ f, fuel = f + 1 := ⟨fuel - 1, by omega⟩
    exact core_timeout_loop_empty env st hq f
  | succ n ih =>
    intro st hlen
    rcases core_timeout_body_cases env st with ⟨s1, t, hb, _, _⟩ | ⟨s1, t, m, hb, _, _, hm, hq⟩
    · refine ⟨s1, ?_⟩
      intro fuel hf
      obtain ⟨f, rfl⟩ : ∃ f, fuel = f + 1 := ⟨fuel - 1, by omega⟩
      simp [core_timeout_loop, hb]
    · have hlen0 : (msg_tmo_delete m st.heap.tmo).length ≤ n := by
        unfold msg_tmo_delete
        rw [List.length_erase_of_mem hm]
        omega
      have hlen1 : s1.heap.tmo.length ≤ n := by
        rcases hq with hq | ⟨s0, hs0, hs1⟩
        · rw [hq]; exact hlen0
        · subst hs1
          have h1 : (core_close env m.tmo_data s0).heap.tmo.length ≤ s0.heap.tmo.length := by
            simp only [core_close, setHeap_heap, log_heap]
            exact le_trans (hclose _ _) (hdel _ _)
          rw [hs0] at h1
          omega
      obtain ⟨st1, h1⟩ := ih s1 hlen1
      refine ⟨st1, ?_⟩
      intro fuel hf
      obtain ⟨f, rfl⟩ : ∃ f, fuel = f + 1 := ⟨fuel - 1, by omega⟩
      simp only [core_timeout_loop, hb]
      exact h1 f (by omega)

/-- `core_loop` when `event_wait` failed. -/
theorem core_loop_of_neg (env : Env) (fuel : Nat) (st : State)
    (h : (env.event_wait st.timeout st.heap).1 < 0) :
    core_loop env fuel st = some ((env.event_wait st.timeout st.heap).1, afterWait env st) := by
  simp [core_loop, h]

/-- `core_loop` when `event_wait` returned a count: dispatch, sweep,
`stats_swap`, `send_message`, and `NC_OK`. -/
theorem core_loop_of_nonneg (env : Env) (fuel : Nat) (st : State)
    (h : 0 ≤ (env.event_wait st.timeout st.heap).1) :
    core_loop env fuel st
      = (core_timeout env fuel
          (core_loop_dispatch env (env.event_wait st.timeout st.heap).1.toNat 0
            (afterWait env st))).map
          (fun st3 => (NC_OK,
            send_message env ((st3.log Call.stats_swap).setHeap (env.stats_swap st3.heap)))) := by
  have h1 : ¬ (env.event_wait st.timeout st.heap).1 < 0 := by omega
  simp only [core_loop, h1, if_false]
  cases core_timeout env fuel
      (core_loop_dispatch env (env.event_wait st.timeout st.heap).1.toNat 0 (afterWait env st)) <;>
    rfl

/-- `core_loop` returns `NC_OK` when `event_wait` returned a count and the
close path never makes the timeout queue longer. -/
theorem core_loop_returns (env : Env) (st : State)
    (hpos : 0 ≤ (env.event_wait st.timeout st.heap).1)
    (hclose : ∀ c h, (env.close c h).tmo.length ≤ h.tmo.length)
    (hdel : ∀ c h, (env.event_del_conn c h).2.tmo.length ≤ h.tmo.length) :
    ∃ n st1, ∀ fuel, n < fuel → core_loop env fuel st = some (NC_OK, st1) := by
  obtain ⟨st3, h3⟩ := core_timeout_loop_terminates env hclose hdel _
    ((core_loop_dispatch env (env.event_wait st.timeout st.heap).1.toNat 0
      (afterWait env st)).log Call.core_timeout) (le_refl _)
  refine ⟨((core_loop_dispatch env (env.event_wait st.timeout st.heap).1.toNat 0
      (afterWait env st)).log Call.core_timeout).heap.tmo.length,
    send_message env ((st3.log Call.stats_swap).setHeap (env.stats_swap st3.heap)), ?_⟩
  intro fuel hf
  rw [core_loop_of_nonneg env fuel st hpos]
  unfold core_timeout
  rw [h3 fuel hf]
  rfl

/-! ## The claims -/

/-- C1: whenever the event mask has the `EPOLLERR` bit set, whatever its other
bits, `core_core` runs `core_error` on the connection and nothing else: the
calls it makes are the socket-error query, the store to `conn->err`, and
`core_close` (event deregistration, then the close strategy); neither the recv
nor the send strategy of any connection is invoked. -/
theorem core_core_error_precedence (env : Env) (conn : ConnId) (events : Nat) (st : State)
    (herr : events &&& EPOLLERR ≠ 0) :
    core_core env conn events st = core_error env conn (core_core_entry conn events st) ∧
    (∃ e, (core_core env conn events st).trace
        = st.trace ++ [Call.core_core conn events, Call.core_error conn,
            Call.nc_get_soerror conn, Call.set_err conn e,
            Call.core_close conn, Call.event_del_conn conn, Call.conn_close conn]) ∧
    (∀ t, (core_core env conn events st).trace = st.trace ++ t →
      ∀ d, Call.conn_recv d ∉ t ∧ Call.conn_send d ∉ t) := by
  have h1 := core_core_of_err env conn events st herr
  have h2 : (core_core env conn events st).trace
        = st.trace ++ [Call.core_core conn events, Call.core_error conn,
            Call.nc_get_soerror conn,
            Call.set_err conn
              (env.nc_get_soerror conn (core_core_entry conn events st).heap).2.errno,
            Call.core_close conn, Call.event_del_conn conn, Call.conn_close conn] := by
    rw [h1, core_error_trace]
    simp
  refine ⟨h1, ⟨_, h2⟩, ?_⟩
  intro t ht d
  rw [h2] at ht
  have := List.append_cancel_left ht
  subst this
  simp

/-- Witness of C1: a mask with both the error and the read bit set. -/
theorem core_core_error_precedence_witness :
    (EPOLLERR ||| EPOLLIN) &&& EPOLLERR ≠ 0 ∧
    (core_core env0 3 (EPOLLERR ||| EPOLLIN) state0).trace
      = [Call.core_core 3 9, Call.core_error 3, Call.nc_get_soerror 3, Call.set_err 3 0,
          Call.core_close 3, Call.event_del_conn 3, Call.conn_close 3] :=
  ⟨by decide,
   by
    have h := (core_core_error_precedence env0 3 (EPOLLERR ||| EPOLLIN) state0 (by decide)).1
    rw [h]
    rfl⟩

/-- C2: for every event mask and every behaviour of the strategies, one
`core_core` call enters `core_close` at most once (and so invokes the close
strategy at most once), and no recv or send strategy is invoked after
`core_close` has been entered. -/
theorem core_core_close_at_most_once (env : Env) (conn : ConnId) (events : Nat) (st : State) :
    ∃ t, (core_core env conn events st).trace = st.trace ++ t ∧
      (∀ d, t.count (Call.core_close d) ≤ 1) ∧
      (∀ d, t.count (Call.conn_close d) ≤ 1) ∧
      (∀ a b d, t = a ++ Call.core_close d :: b →
        ∀ e, Call.conn_recv e ∉ b ∧ Call.conn_send e ∉ b) := by
  obtain ⟨p, s, htr, hp, hs⟩ := core_core_trace_split_no_close env conn events st
  refine ⟨Call.core_core conn events :: p ++ s, htr, ?_, ?_, ?_⟩
  · intro d
    have h0 : List.count (Call.core_close d) p = 0 := List.count_eq_zero.mpr (hp d).1
    rcases hs with hs | hs <;> subst hs
    · simp [List.count_cons, h0]
    · simp only [List.cons_append, List.count_cons, List.count_append, h0, List.count_nil]
      by_cases hd : conn = d <;> simp [hd]
  · intro d
    have h0 : List.count (Call.conn_close d) p = 0 := List.count_eq_zero.mpr (hp d).2
    rcases hs with hs | hs <;> subst hs
    · simp [List.count_cons, h0]
    · simp only [List.cons_append, List.count_cons, List.count_append, h0, List.count_nil]
      by_cases hd : conn = d <;> simp [hd]
  · apply no_io_after_close_of_split (Call.core_core conn events :: p) s
    · intro d
      simp [(hp d).1]
    · intro e
      rcases hs with hs | hs <;> subst hs <;> simp

/-- C3: on a mask without the error bit, `core_core` services the read class
(`EPOLLIN` or `EPOLLHUP`) first and the write class second. With a read-class
bit the recv strategy is the first call; the send strategy is called only
with the write bit and only after a read phase (when there was one) that
returned `NC_OK` and left the connection neither done nor in error; a phase
that returned non-OK or left the connection done or in error is followed at
once by `core_close`, after which `core_core` returns. The seven cases list
the calls made, in order, and the state returned. -/
theorem core_core_read_then_write (env : Env) (conn : ConnId) (events : Nat) (st : State)
    (herr : events &&& EPOLLERR = 0) :
    -- the read phase asks for a close: no send
    (events &&& (EPOLLIN ||| EPOLLHUP) ≠ 0 →
      mustClose (readPhase env conn events st).1 (readPhase env conn events st).2.heap conn = true →
      core_core env conn events st = core_close env conn (readPhase env conn events st).2 ∧
      (core_core env conn events st).trace
        = st.trace ++ [Call.core_core conn events, Call.conn_recv conn,
            Call.core_close conn, Call.event_del_conn conn, Call.conn_close conn]) ∧
    -- the read phase went through, the write phase asks for a close
    (events &&& (EPOLLIN ||| EPOLLHUP) ≠ 0 →
      mustClose (readPhase env conn events st).1 (readPhase env conn events st).2.heap conn = false →
      events &&& EPOLLOUT ≠ 0 →
      mustClose (writePhase env conn events st).1 (writePhase env conn events st).2.heap conn = true →
      core_core env conn events st = core_close env conn (writePhase env conn events st).2 ∧
      (core_core env conn events st).trace
        = st.trace ++ [Call.core_core conn events, Call.conn_recv conn, Call.conn_send conn,
            Call.core_close conn, Call.event_del_conn conn, Call.conn_close conn]) ∧
    -- both phases went through
    (events &&& (EPOLLIN ||| EPOLLHUP) ≠ 0 →
      mustClose (readPhase env conn events st).1 (readPhase env conn events st).2.heap conn = false →
      events &&& EPOLLOUT ≠ 0 →
      mustClose (writePhase env conn events st).1 (writePhase env conn events st).2.heap conn = false →
      core_core env conn events st = (writePhase env conn events st).2 ∧
      (core_core env conn events st).trace
        = st.trace ++ [Call.core_core conn events, Call.conn_recv conn, Call.conn_send conn]) ∧
    -- the read phase went through, no write bit
    (events &&& (EPOLLIN ||| EPOLLHUP) ≠ 0 →
      mustClose (readPhase env conn events st).1 (readPhase env conn events st).2.heap conn = false →
      events &&& EPOLLOUT = 0 →
      core_core env conn events st = (readPhase env conn events st).2 ∧
      (core_core env conn events st).trace
        = st.trace ++ [Call.core_core conn events, Call.conn_recv conn]) ∧
    -- no read-class bit, the write phase asks for a close
    (events &&& (EPOLLIN ||| EPOLLHUP) = 0 →
      events &&& EPOLLOUT ≠ 0 →
      mustClose (writePhase env conn events st).1 (writePhase env conn events st).2.heap conn = true →
      core_core env conn events st = core_close env conn (writePhase env conn events st).2 ∧
      (core_core env conn events st).trace
        = st.trace ++ [Call.core_core conn events, Call.conn_send conn,
            Call.core_close conn, Call.event_del_conn conn, Call.conn_close conn]) ∧
    -- no read-class bit, the write phase went through
    (events &&& (EPOLLIN ||| EPOLLHUP) = 0 →
      events &&& EPOLLOUT ≠ 0 →
      mustClose (writePhase env conn events st).1 (writePhase env conn events st).2.heap conn = false →
      core_core env conn events st = (writePhase env conn events st).2 ∧
      (core_core env conn events st).trace
        = st.trace ++ [Call.core_core conn events, Call.conn_send conn]) ∧
    -- neither a read-class bit nor the write bit
    (events &&& (EPOLLIN ||| EPOLLHUP) = 0 →
      events &&& EPOLLOUT = 0 →
      core_core env conn events st = core_core_entry conn events st ∧
      (core_core env conn events st).trace = st.trace ++ [Call.core_core conn events]) := by
  refine ⟨?_, ?_, ?_, ?_, ?_, ?_, ?_⟩
  · intro hr hc
    have h := core_core_of_read_close env conn events st herr hr hc
    refine ⟨h, ?_⟩
    rw [h]
    simp [readPhase]
  · intro hr hc hw hs
    have hwp : writePhase env conn events st
        = core_send env conn (readPhase env conn events st).2 := by
      simp [writePhase, hr]
    rw [hwp] at hs
    have h := (core_core_of_read_ok env conn events st herr hr hc).trans
      (core_core_write_close env conn events _ hw hs)
    rw [hwp]
    refine ⟨h, ?_⟩
    rw [h]
    simp [readPhase]
  · intro hr hc hw hs
    have hwp : writePhase env conn events st
        = core_send env conn (readPhase env conn events st).2 := by
      simp [writePhase, hr]
    rw [hwp] at hs
    have h := (core_core_of_read_ok env conn events st herr hr hc).trans
      (core_core_write_ok env conn events _ hw hs)
    rw [hwp]
    refine ⟨h, ?_⟩
    rw [h]
    simp [readPhase]
  · intro hr hc hw
    have h := (core_core_of_read_ok env conn events st herr hr hc).trans
      (core_core_write_skip env conn events _ hw)
    refine ⟨h, ?_⟩
    rw [h]
    simp [readPhase]
  · intro hr hw hs
    have hwp : writePhase env conn events st
        = core_send env conn (core_core_entry conn events st) := by
      simp [writePhase, hr]
    rw [hwp] at hs
    have h := (core_core_of_no_read env conn events st herr hr).trans
      (core_core_write_close env conn events _ hw hs)
    rw [hwp]
    refine ⟨h, ?_⟩
    rw [h]
    simp
  · intro hr hw hs
    have hwp : writePhase env conn events st
        = core_send env conn (core_core_entry conn events st) := by
      simp [writePhase, hr]
    rw [hwp] at hs
    have h := (core_core_of_no_read env conn events st herr hr).trans
      (core_core_write_ok env conn events _ hw hs)
    rw [hwp]
    refine ⟨h, ?_⟩
    rw [h]
    simp
  · intro hr hw
    have h := (core_core_of_no_read env conn events st herr hr).trans
      (core_core_write_skip env conn events _ hw)
    refine ⟨h, ?_⟩
    rw [h]
    simp

/-- Witness of C3: a hang-up with the write bit on a connection whose recv
strategy reports end of stream by marking it done; the send is not tried. -/
theorem core_core_read_then_write_witness :
    (EPOLLHUP ||| EPOLLOUT) &&& EPOLLERR = 0 ∧
    (core_core envEof 3 (EPOLLHUP ||| EPOLLOUT) state0).trace
      = [Call.core_core 3 20, Call.conn_recv 3,
          Call.core_close 3, Call.event_del_conn 3, Call.conn_close 3] :=
  ⟨by decide,
   ((core_core_read_then_write envEof 3 (EPOLLHUP ||| EPOLLOUT) state0 (by decide)).1
      (by decide) (by decide)).2⟩

/-- C4, as amended: when the queue minimum is a pending request (neither done
nor in error) whose deadline is strictly later than the clock reading, the
sweep returns at once; it leaves the heap (the queue and every connection, its
error code included) as it was, makes no call but `msg_tmo_min` and
`nc_msec_now`, and sets `ctx->timeout` to `MIN((int)(deadline - now),
max_timeout)`. That is `min(deadline - now, max_timeout)` whenever
`deadline - now` fits a 32-bit `int`. -/
theorem core_timeout_live_minimum (env : Env) (st : State) (fuel : Nat) (msg : Msg)
    (hmin : msg_tmo_min st.heap.tmo = some msg)
    (herr : msg.error = false) (hdone : msg.done = false)
    (hlt : env.nc_msec_now st.heap < msg.tmo_key) :
    ∃ st1, core_timeout_loop env (fuel + 1) st = some st1 ∧
      st1.timeout = MIN (toInt32 (msg.tmo_key - env.nc_msec_now st.heap)) st.max_timeout ∧
      (msg.tmo_key - env.nc_msec_now st.heap ≤ 2 ^ 31 - 1 →
        st1.timeout = min (msg.tmo_key - env.nc_msec_now st.heap) st.max_timeout) ∧
      st1.heap = st.heap ∧
      st1.max_timeout = st.max_timeout ∧
      st1.trace = st.trace ++ [Call.msg_tmo_min, Call.nc_msec_now] := by
  refine ⟨{ st with
      timeout := MIN (toInt32 (msg.tmo_key - env.nc_msec_now st.heap)) st.max_timeout
      trace := st.trace ++ [Call.msg_tmo_min, Call.nc_msec_now] }, ?_, rfl, ?_, rfl, rfl, rfl⟩
  · simp [core_timeout_loop, core_timeout_body_live env st msg hmin herr hdone hlt]
  · intro hfit
    show MIN _ _ = _
    rw [toInt32_of_fits _ (by omega) hfit, MIN_eq_min]

/-- Witness of C4: a deadline 500 ms ahead under a 30000 ms maximum. -/
theorem core_timeout_live_minimum_witness :
    msg_tmo_min (stateQ [msgLive]).heap.tmo = some msgLive ∧
    msgLive.error = false ∧ msgLive.done = false ∧
    env0.nc_msec_now (stateQ [msgLive]).heap < msgLive.tmo_key ∧
    ∃ st1, core_timeout_loop env0 1 (stateQ [msgLive]) = some st1 ∧ st1.timeout = 500 :=
  ⟨by decide, rfl, rfl, by decide,
   by
    obtain ⟨st1, h1, h2, _⟩ :=
      core_timeout_live_minimum env0 (stateQ [msgLive]) 0 msgLive (by decide) rfl rfl (by decide)
    exact ⟨st1, h1, by rw [h2]; decide⟩⟩

/-- Counterexample to C4 as stated: with the only request due `2^31` ms after
the clock reading and a maximum of 30000 ms, the sweep sets `ctx->timeout` to
`-2147483648`, not to `min(deadline - now, max_timeout) = 30000`. -/
theorem core_timeout_live_minimum_counterexample :
    msg_tmo_min (stateQ [msgFar]).heap.tmo = some msgFar ∧
    msgFar.error = false ∧ msgFar.done = false ∧
    env0.nc_msec_now (stateQ [msgFar]).heap < msgFar.tmo_key ∧
    (core_timeout env0 1 (stateQ [msgFar])).map (fun s => s.timeout) = some (-2147483648) ∧
    min (msgFar.tmo_key - env0.nc_msec_now (stateQ [msgFar]).heap)
      (stateQ [msgFar]).max_timeout = 30000 := by
  refine ⟨by decide, rfl, rfl, by decide, by decide, by decide⟩

/-- C5: when the queue minimum is a pending request (neither done nor in
error) whose deadline is not later than the clock reading, the pass of the
sweep removes it from the timeout queue, then stores `ETIMEDOUT` in the error
code of its owning connection, then runs `core_close` on that connection
(event deregistration and close strategy, on a heap that already shows the
removal and the error code), and only then goes on to the next minimum. -/
theorem core_timeout_expired_minimum (env : Env) (st : State) (fuel : Nat) (msg : Msg)
    (hmin : msg_tmo_min st.heap.tmo = some msg)
    (herr : msg.error = false) (hdone : msg.done = false)
    (hexp : msg.tmo_key ≤ env.nc_msec_now st.heap) :
    ∃ st1, st1.heap.tmo = msg_tmo_delete msg st.heap.tmo ∧
      (st1.heap.conns msg.tmo_data).err = ETIMEDOUT ∧
      (∀ d, d ≠ msg.tmo_data → st1.heap.conns d = st.heap.conns d) ∧
      st1.trace = st.trace ++ [Call.msg_tmo_min, Call.nc_msec_now,
        Call.msg_tmo_delete msg, Call.set_err msg.tmo_data ETIMEDOUT] ∧
      core_timeout_body env st = LoopStep.continue (core_close env msg.tmo_data st1) ∧
      (core_close env msg.tmo_data st1).trace
        = st.trace ++ [Call.msg_tmo_min, Call.nc_msec_now,
            Call.msg_tmo_delete msg, Call.set_err msg.tmo_data ETIMEDOUT,
            Call.core_close msg.tmo_data, Call.event_del_conn msg.tmo_data,
            Call.conn_close msg.tmo_data] ∧
      core_timeout_loop env (fuel + 1) st
        = core_timeout_loop env fuel (core_close env msg.tmo_data st1) := by
  refine ⟨{ st with
      heap := ({ st.heap with tmo := msg_tmo_delete msg st.heap.tmo }).updConn
        msg.tmo_data (fun k => { k with err := ETIMEDOUT })
      trace := st.trace ++ [Call.msg_tmo_min, Call.nc_msec_now,
        Call.msg_tmo_delete msg, Call.set_err msg.tmo_data ETIMEDOUT] },
    ?_, ?_, ?_, ?_, core_timeout_body_expired env st msg hmin herr hdone hexp, ?_, ?_⟩
  · rfl
  · simp [Heap.updConn]
  · intro d hd
    simp [Heap.updConn, hd]
  · rfl
  · simp
  · simp [core_timeout_loop, core_timeout_body_expired env st msg hmin herr hdone hexp]

/-- Witness of C5: a request 100 ms overdue, with a later pending one behind
it. -/
theorem core_timeout_expired_minimum_witness :
    msg_tmo_min (stateQ [msgLive, msgExpired]).heap.tmo = some msgExpired ∧
    msgExpired.error = false ∧ msgExpired.done = false ∧
    msgExpired.tmo_key ≤ env0.nc_msec_now (stateQ [msgLive, msgExpired]).heap ∧
    ∃ st1, st1.heap.tmo = [msgLive] ∧ (st1.heap.conns 1).err = 110 ∧
      core_timeout_body env0 (stateQ [msgLive, msgExpired])
        = LoopStep.continue (core_close env0 1 st1) :=
  ⟨by decide, rfl, rfl, by decide,
   by
    obtain ⟨st1, h1, h2, _, _, h5, _⟩ :=
      core_timeout_expired_minimum env0 (stateQ [msgLive, msgExpired]) 0 msgExpired
        (by decide) rfl rfl (by decide)
    exact ⟨st1, by rw [h1]; decide, h2, h5⟩⟩

/-- C6: a request that is marked done or in error when the sweep meets it as
the queue minimum is removed from the queue and the scan goes on with the next
minimum; that pass leaves `ctx->timeout` and every connection as they were,
reads no clock, and makes no call but `msg_tmo_min` and `msg_tmo_delete`,
whatever the deadline of the request. -/
theorem core_timeout_dead_minimum (env : Env) (st : State) (fuel : Nat) (msg : Msg)
    (hmin : msg_tmo_min st.heap.tmo = some msg)
    (hdead : msg.error = true ∨ msg.done = true) :
    ∃ st1, core_timeout_body env st = LoopStep.continue st1 ∧
      core_timeout_loop env (fuel + 1) st = core_timeout_loop env fuel st1 ∧
      st1.heap.tmo = msg_tmo_delete msg st.heap.tmo ∧
      st1.heap.conns = st.heap.conns ∧
      st1.timeout = st.timeout ∧
      st1.trace = st.trace ++ [Call.msg_tmo_min, Call.msg_tmo_delete msg] := by
  refine ⟨{ st with
      heap := { st.heap with tmo := msg_tmo_delete msg st.heap.tmo }
      trace := st.trace ++ [Call.msg_tmo_min, Call.msg_tmo_delete msg] },
    core_timeout_body_dead env st msg hmin hdead, ?_, rfl, rfl, rfl, rfl⟩
  simp [core_timeout_loop, core_timeout_body_dead env st msg hmin hdead]

/-- Witness of C6: a done request with the oldest deadline of the queue. -/
theorem core_timeout_dead_minimum_witness :
    msg_tmo_min (stateQ [msgExpired, msgDone]).heap.tmo = some msgDone ∧
    (msgDone.error = true ∨ msgDone.done = true) ∧
    ∃ st1, core_timeout_body env0 (stateQ [msgExpired, msgDone]) = LoopStep.continue st1 ∧
      st1.heap.tmo = [msgExpired] ∧ st1.timeout = 30000 ∧
      st1.trace = [Call.msg_tmo_min, Call.msg_tmo_delete msgDone] :=
  ⟨by decide, Or.inr rfl,
   by
    obtain ⟨st1, h1, _, h3, _, h5, h6⟩ :=
      core_timeout_dead_minimum env0 (stateQ [msgExpired, msgDone]) 0 msgDone
        (by decide) (Or.inr rfl)
    exact ⟨st1, h1, by rw [h3]; decide, by rw [h5]; rfl, by rw [h6]; rfl⟩⟩

/-- C7, as amended: assume the close path (event deregistration and close
strategy) inserts nothing into the timeout queue. (1) If moreover it leaves the
queue as it is, and the queue holds a pending request `live` that is unexpired
at every clock reading, the only one with its deadline, while the `K` requests
with an earlier deadline are each done, in error, or expired at every clock
reading, then `core_timeout` returns within `K + 1` passes, its
`msg_tmo_delete` calls remove exactly those `K` requests, each once, the queue
left is `live` and the requests after it, and `ctx->timeout` is set from the
deadline of `live`. (2) If every request of the queue is done, in error, or
expired at every clock reading, `core_timeout` returns within one pass more
than the queue has entries, with the queue empty and `ctx->timeout` set to
`ctx->max_timeout`. -/
theorem core_timeout_sweep (env : Env) (st : State)
    (hclose : ∀ c h, (env.close c h).tmo.Sublist h.tmo)
    (hdel : ∀ c h, (env.event_del_conn c h).2.tmo.Sublist h.tmo) :
    (∀ live : Msg,
      (∀ c h, (env.close c h).tmo = h.tmo) →
      (∀ c h, (env.event_del_conn c h).2.tmo = h.tmo) →
      live ∈ st.heap.tmo → live.error = false → live.done = false →
      (∀ h, env.nc_msec_now h < live.tmo_key) →
      (∀ m ∈ st.heap.tmo, m.tmo_key < live.tmo_key →
        (m.error = true ∨ m.done = true) ∨ ∀ h, m.tmo_key ≤ env.nc_msec_now h) →
      (∀ m ∈ st.heap.tmo, m.tmo_key = live.tmo_key → m = live) →
      ∃ st1 t,
        (∀ fuel,
          (st.heap.tmo.filter (fun m => decide (m.tmo_key < live.tmo_key))).length < fuel →
          core_timeout env fuel st = some st1) ∧
        st1.trace = st.trace ++ Call.core_timeout :: t ∧
        (deletions t).Perm (st.heap.tmo.filter (fun m => decide (m.tmo_key < live.tmo_key))) ∧
        (deletions t).length
          = (st.heap.tmo.filter (fun m => decide (m.tmo_key < live.tmo_key))).length ∧
        (st.heap.tmo.Nodup → (deletions t).Nodup) ∧
        st1.heap.tmo = st.heap.tmo.filter (fun m => decide (live.tmo_key ≤ m.tmo_key)) ∧
        live ∈ st1.heap.tmo ∧
        st1.timeout
          = MIN (toInt32 (live.tmo_key - env.nc_msec_now st1.heap)) st.max_timeout) ∧
    ((∀ m ∈ st.heap.tmo,
        (m.error = true ∨ m.done = true) ∨ ∀ h, m.tmo_key ≤ env.nc_msec_now h) →
      ∃ st1,
        (∀ fuel, st.heap.tmo.length < fuel → core_timeout env fuel st = some st1) ∧
        st1.heap.tmo = [] ∧
        st1.timeout = st.max_timeout) := by
  constructor
  · intro live hclose1 hdel1 hmem herr hdone hunexp hpre htie
    obtain ⟨st1, t, h1, h2, h3, h4, h5, _⟩ :=
      core_timeout_loop_stops_at_live env live hclose1 hdel1 herr hdone hunexp _
        (st.log Call.core_timeout) rfl hmem hpre htie
    refine ⟨st1, t, h1, ?_, h4, h4.length_eq, ?_, h3, ?_, h5⟩
    · rw [h2]
      simp
    · intro hnd
      exact (List.Perm.nodup_iff h4).mpr (hnd.sublist (List.filter_sublist _))
    · rw [h3]
      simp [List.mem_filter]
      exact hmem
  · intro hall
    obtain ⟨st1, t, h1, _, h3, h4, _⟩ :=
      core_timeout_loop_drains env hclose hdel _ (st.log Call.core_timeout) (le_refl _) hall
    exact ⟨st1, h1, h3, h4⟩

/-- Witness of C7: a done request and an expired one ahead of a pending one,
then two expired requests alone, with a close strategy that leaves the queue
alone. -/
theorem core_timeout_sweep_witness :
    (∃ st1, core_timeout envFixed 3 (stateQ [msgLive, msgExpired, msgDone]) = some st1 ∧
      st1.heap.tmo = [msgLive] ∧ st1.timeout = 500) ∧
    (∃ st1, core_timeout envFixed 3 (stateQ [msgExpired, msgDone]) = some st1 ∧
      st1.heap.tmo = [] ∧ st1.timeout = 30000) := by
  constructor
  · obtain ⟨st1, t, h1, _, _, _, _, h6, _, h8⟩ :=
      (core_timeout_sweep envFixed (stateQ [msgLive, msgExpired, msgDone])
        (fun _ _ => List.Sublist.refl _) (fun _ _ => List.Sublist.refl _)).1 msgLive
        (fun _ _ => rfl) (fun _ _ => rfl) (by decide) rfl rfl
        (fun _ => by rw [envFixed_now]; decide)
        (by
          intro m hm hlt
          have hm1 : m = msgLive ∨ m = msgExpired ∨ m = msgDone := by
            simpa [stateQ, heap0] using hm
          rcases hm1 with h | h | h
          · subst h; exact absurd hlt (by decide)
          · subst h; exact Or.inr (fun _ => by rw [envFixed_now]; decide)
          · subst h; exact Or.inl (Or.inr rfl))
        (by decide)
    refine ⟨st1, h1 3 (by decide), ?_, ?_⟩
    · rw [h6]; decide
    · rw [h8, envFixed_now]; decide
  · obtain ⟨st1, h1, h2, h3⟩ :=
      (core_timeout_sweep envFixed (stateQ [msgExpired, msgDone])
        (fun _ _ => List.Sublist.refl _) (fun _ _ => List.Sublist.refl _)).2
        (by
          intro m hm
          have hm1 : m = msgExpired ∨ m = msgDone := by
            simpa [stateQ, heap0] using hm
          rcases hm1 with h | h
          · subst h; exact Or.inr (fun _ => by rw [envFixed_now]; decide)
          · subst h; exact Or.inl (Or.inr rfl))
    exact ⟨st1, h1 3 (by decide), h2, by rw [h3]; rfl⟩

/-- Counterexample to C7 as stated: the close strategy of `envPurgeFixed`
inserts nothing (it purges the entries of the connection it closes); the
queue holds one expired request and, next, a pending unexpired one of the
same connection. The sweep deletes the expired request, the close of its
connection purges the pending one, and the sweep ends with the queue empty
and `ctx->timeout` at its maximum: the pending request is not left in the
queue. -/
theorem core_timeout_sweep_counterexample :
    (∀ c h, (envPurgeFixed.close c h).tmo.Sublist h.tmo) ∧
    (∀ c h, (envPurgeFixed.event_del_conn c h).2.tmo = h.tmo) ∧
    msgLive ∈ (stateQ [msgExpired, msgLive]).heap.tmo ∧
    msgLive.error = false ∧ msgLive.done = false ∧
    (∀ h, envPurgeFixed.nc_msec_now h < msgLive.tmo_key) ∧
    (∀ h, msgExpired.tmo_key ≤ envPurgeFixed.nc_msec_now h) ∧
    ((stateQ [msgExpired, msgLive]).heap.tmo.filter
      (fun m => decide (m.tmo_key < msgLive.tmo_key))) = [msgExpired] ∧
    (core_timeout envPurgeFixed 2 (stateQ [msgExpired, msgLive])).map
        (fun s => (s.heap.tmo, s.timeout, deletions s.trace))
      = some ([], 30000, [msgExpired]) := by
  refine ⟨?_, fun _ _ => rfl, by decide, rfl, rfl,
    fun _ => by rw [envPurgeFixed_now]; decide,
    fun _ => by rw [envPurgeFixed_now]; decide, by decide, by decide⟩
  intro c h
  exact List.filter_sublist _

/-- C8, the code at the failing input: with every earlier step successful and
the first `fork` failing, `core_ctx_create` returns `NULL` right after the
`fork`, having released nothing, and `core_start` adds only its own three
`deinit` calls; when `proxy_init` fails, the step just before, everything is
released in reverse order. A failing `nc_set_nonblocking` returns the non-NULL
pointer `(struct context *)NC_ERROR` with nothing released, and a failing
`socketpair` does not stop the start-up. -/
theorem core_ctx_create_fork_failure :
    core_ctx_create setupForkFails
      = (CtxResult.null,
          [SetupCall.nc_alloc, SetupCall.conf_create, SetupCall.server_pool_init,
           SetupCall.socketpair, SetupCall.nc_set_nonblocking 0, SetupCall.nc_set_nonblocking 1,
           SetupCall.stats_create, SetupCall.event_init, SetupCall.proxy_init,
           SetupCall.fork 0]) ∧
    (∀ c ∈ [SetupCall.stats_destroy, SetupCall.event_deinit, SetupCall.server_pool_deinit,
        SetupCall.conf_destroy, SetupCall.nc_free], c ∉ (core_start setupForkFails).2) ∧
    core_ctx_create setupProxyFails
      = (CtxResult.null,
          [SetupCall.nc_alloc, SetupCall.conf_create, SetupCall.server_pool_init,
           SetupCall.socketpair, SetupCall.nc_set_nonblocking 0, SetupCall.nc_set_nonblocking 1,
           SetupCall.stats_create, SetupCall.event_init, SetupCall.proxy_init,
           SetupCall.server_pool_disconnect, SetupCall.event_deinit, SetupCall.stats_destroy,
           SetupCall.server_pool_deinit, SetupCall.conf_destroy, SetupCall.nc_free]) ∧
    core_start setupNonblockFails
      = (CtxResult.invalid (-1),
          [SetupCall.mbuf_init, SetupCall.msg_init, SetupCall.conn_init,
           SetupCall.nc_alloc, SetupCall.conf_create, SetupCall.server_pool_init,
           SetupCall.socketpair, SetupCall.nc_set_nonblocking 0]) ∧
    (core_ctx_create setupSocketpairFails).1 = CtxResult.ctx := by
  refine ⟨by decide, by decide, by decide, by decide, by decide⟩

/-- C9: `core_loop` returns a non-OK status exactly when `event_wait` returned
a negative result. In that case it returns that negative value at once, the
only call made being `event_wait` (no dispatch, no sweep, no statistics swap,
no notification). Otherwise every return is `NC_OK`, whatever the strategies,
the sweep and `sendmsg` did, and `core_loop` does return as soon as the
timeout sweep does, which it does within one pass more than the queue has
entries when the close path never makes the queue longer. -/
theorem core_loop_status (env : Env) (st : State) :
    ((env.event_wait st.timeout st.heap).1 < 0 →
      (env.event_wait st.timeout st.heap).1 ≠ NC_OK ∧
      ∀ fuel, ∃ st1,
        core_loop env fuel st = some ((env.event_wait st.timeout st.heap).1, st1) ∧
        st1.trace = st.trace ++ [Call.event_wait] ∧ st1.timeout = st.timeout) ∧
    (0 ≤ (env.event_wait st.timeout st.heap).1 →
      (∀ fuel r st1, core_loop env fuel st = some (r, st1) → r = NC_OK) ∧
      (∀ fuel, (core_loop env fuel st).isSome
        = (core_timeout env fuel
            (core_loop_dispatch env (env.event_wait st.timeout st.heap).1.toNat 0
              (afterWait env st))).isSome) ∧
      ((∀ c h, (env.close c h).tmo.length ≤ h.tmo.length) →
        (∀ c h, (env.event_del_conn c h).2.tmo.length ≤ h.tmo.length) →
        ∃ n st1, ∀ fuel, n < fuel → core_loop env fuel st = some (NC_OK, st1))) := by
  constructor
  · intro hneg
    refine ⟨?_, ?_⟩
    · unfold NC_OK
      omega
    · intro fuel
      exact ⟨afterWait env st, core_loop_of_neg env fuel st hneg, rfl, rfl⟩
  · intro hpos
    refine ⟨?_, ?_, ?_⟩
    · intro fuel r st1 h
      rw [core_loop_of_nonneg env fuel st hpos] at h
      cases hc : core_timeout env fuel
          (core_loop_dispatch env (env.event_wait st.timeout st.heap).1.toNat 0
            (afterWait env st)) with
      | none => rw [hc] at h; simp at h
      | some st3 =>
        rw [hc] at h
        simp at h
        exact h.1.symm
    · intro fuel
      rw [core_loop_of_nonneg env fuel st hpos]
      simp
    · intro hclose hdel
      exact core_loop_returns env st hpos hclose hdel

/-- Witness of C9: a failing `event_wait`, and an iteration with two events
dispatched, one of them closing its connection. -/
theorem core_loop_status_witness :
    (∃ st1, core_loop envWaitFails 0 state0 = some (-1, st1) ∧
      st1.trace = [Call.event_wait]) ∧
    (∃ n st1, ∀ fuel, n < fuel → core_loop envTwoEvents fuel state0 = some (NC_OK, st1)) := by
  constructor
  · obtain ⟨st1, h1, h2, _⟩ :=
      ((core_loop_status envWaitFails state0).1 (by decide)).2 0
    exact ⟨st1, h1, h2⟩
  · exact ((core_loop_status envTwoEvents state0).2 (by decide)).2.2
      (fun _ _ => le_refl _) (fun _ _ => le_refl _)

/-- C10: when `event_wait` returned `n >= 0`, the calls `core_loop` makes
itself are, in this order: `event_wait`; `core_core` on the entries
`0, 1, ..., n - 1` of `ctx->event`, once each; `core_timeout` once;
`stats_swap` once; `send_message` once (two `sendmsg` calls, the last calls of
the iteration). This holds of every return of `core_loop`, and `core_loop`
does return when the close path never makes the timeout queue longer. -/
theorem core_loop_order (env : Env) (st : State)
    (hnsd : 0 ≤ (env.event_wait st.timeout st.heap).1) :
    (∀ fuel r st1, core_loop env fuel st = some (r, st1) →
      ∃ t, st1.trace = st.trace ++ t ∧
        t.filter isTop
          = Call.event_wait ::
              (List.range (env.event_wait st.timeout st.heap).1.toNat).map
                (fun i => Call.core_core ((env.event_wait st.timeout st.heap).2.1 i).ptr
                  ((env.event_wait st.timeout st.heap).2.1 i).events)
            ++ [Call.core_timeout, Call.stats_swap, Call.send_message] ∧
        ∃ t0, t = t0 ++ [Call.stats_swap, Call.send_message, Call.sendmsg, Call.sendmsg]) ∧
    ((∀ c h, (env.close c h).tmo.length ≤ h.tmo.length) →
      (∀ c h, (env.event_del_conn c h).2.tmo.length ≤ h.tmo.length) →
      ∃ n st1, ∀ fuel, n < fuel → core_loop env fuel st = some (NC_OK, st1)) := by
  constructor
  · intro fuel r st1 h
    rw [core_loop_of_nonneg env fuel st hnsd] at h
    cases hc : core_timeout env fuel
        (core_loop_dispatch env (env.event_wait st.timeout st.heap).1.toNat 0
          (afterWait env st)) with
    | none => rw [hc] at h; simp at h
    | some st3 =>
      rw [hc] at h
      simp only [Option.map_some', Option.some.injEq, Prod.mk.injEq] at h
      obtain ⟨_, hst1⟩ := h
      obtain ⟨_, td, htd, hfd⟩ := core_loop_dispatch_top env
        (env.event_wait st.timeout st.heap).1.toNat 0 (afterWait env st)
      obtain ⟨ts, hts, hfs⟩ := core_timeout_loop_top env fuel _ st3 hc
      have htr : st1.trace = st.trace ++ ((Call.event_wait :: td ++ Call.core_timeout :: ts)
          ++ [Call.stats_swap, Call.send_message, Call.sendmsg, Call.sendmsg]) := by
        rw [← hst1]
        simp only [send_message, log_trace, setHeap_trace, hts, htd]
        simp [afterWait]
      refine ⟨_, htr, ?_, ⟨_, rfl⟩⟩
      simp only [List.filter_append, List.filter_cons, hfd, hfs, isTop, List.cons_append]
      simp [List.range_eq_range', afterWait]
  · intro hclose hdel
    exact core_loop_returns env st hnsd hclose hdel

/-- Witness of C10: an iteration with two ready events. -/
theorem core_loop_order_witness :
    0 ≤ (envTwoEvents.event_wait state0.timeout state0.heap).1 ∧
    (∃ fuel st1, core_loop envTwoEvents fuel state0 = some (NC_OK, st1) ∧
      st1.trace.filter isTop
        = [Call.event_wait, Call.core_core 3 1, Call.core_core 4 8,
            Call.core_timeout, Call.stats_swap, Call.send_message]) := by
  refine ⟨by decide, ?_⟩
  obtain ⟨n, st1, h⟩ := (core_loop_order envTwoEvents state0 (by decide)).2
    (fun _ _ => le_refl _) (fun _ _ => le_refl _)
  obtain ⟨t, ht, hf, _⟩ :=
    (core_loop_order envTwoEvents state0 (by decide)).1 (n + 1) NC_OK st1 (h (n + 1) (by omega))
  refine ⟨n + 1, st1, h (n + 1) (by omega), ?_⟩
  have h0 : state0.trace ++ t = t := rfl
  rw [ht, h0, hf]
  decide

end Twemproxy
